import Mathlib

/-!
# Compose-to-bake translation (`bake/compose.go`)

A shallow embedding of the Compose translator of `src/bake/compose.go` and the
properties of it that the specification states.

Conventions of the embedding:

* a Go `string` is a Lean `String`; a Go slice is a `List` (a nil slice and an
  empty slice are both `[]`); a Go pointer `*T` that may be nil is an `Option T`;
* a Go `map[string]V` is a `GoMap V`: the list of its entries in the order in
  which a `range` loop happens to enumerate them.  A map that may be nil and
  whose nil-ness is observable is an `Option (GoMap V)`;
* a Go `(T, error)` result is an `Except String T`, the string being the
  error's message;
* functions of other packages (the Compose loader, the YAML codec, the ulimit
  parser, the dotenv parser, ...), the process and the file system, and the name
  helpers of this package that `compose.go` calls but does not define, are
  fields of `Externals` and `Host`: every theorem holds for all of them;
* `dedupSlice` and `dedupMap`, which `compose.go` calls but does not define,
  are modelled from the specification.
-/

set_option linter.dupNamespace false
set_option autoImplicit false

namespace Bake

/-! ## Go results and maps -/

deriving instance DecidableEq for Except

/-- A Go `map[string]V`, as the list of its entries in enumeration order. -/
abbrev GoMap (V : Type) := List (String × V)

/-- The map read `v, ok := m[k]`: `none` when `ok` is false. -/
def mapGet {V : Type} (m : GoMap V) (k : String) : Option V :=
  match m with
  | [] => none
  | (k', v) :: rest => if k' = k then some v else mapGet rest k

/-- The map write `m[k] = v`: an existing entry is overwritten in place, a new
key is added. -/
def mapSet {V : Type} (m : GoMap V) (k : String) (v : V) : GoMap V :=
  match m with
  | [] => [(k, v)]
  | (k', v') :: rest => if k' = k then (k, v) :: rest else (k', v') :: mapSet rest k v

/-- The keys of a map, in enumeration order. -/
def mapKeys {V : Type} (m : GoMap V) : List String := m.map Prod.fst

/-- The read of a map that may be nil: reading a nil map finds nothing. -/
def mapGetNil {V : Type} (m : Option (GoMap V)) (k : String) : Option V :=
  match m with
  | none => none
  | some entries => mapGet entries k

/-- The entries of a map that may be nil: a nil map has none. -/
def mapEntries {V : Type} (m : Option (GoMap V)) : GoMap V :=
  match m with
  | none => []
  | some entries => entries

/-! ## Standard-library functions -/

/-- Go `strings.Join`. -/
def stringsJoin (elems : List String) (sep : String) : String :=
  sep.intercalate elems

/-- Go `sort.Strings`: the ascending rearrangement of the slice.  Go compares
strings bytewise, which on UTF-8 text is the lexicographic order of the code
points, the order `≤` of `String`. -/
def sortStrings (l : List String) : List String :=
  l.insertionSort (fun a b => a.data ≤ b.data)

/-- Go `strings.ToLower`, on the ASCII letters (the theorems use it only as a
function from names to names). -/
def stringsToLower (s : String) : String :=
  String.mk (s.data.map Char.toLower)

/-- Go `strings.HasSuffix`. -/
def stringsHasSuffix (s suffix : String) : Bool :=
  suffix.data.isSuffixOf s.data

/-! ## Compose types (`compose-go/v2/types`) -/

/-- The type `types.ConfigFile`: one input file. -/
structure ConfigFile where
  Filename : String
  Content : String

/-- The type `types.ServiceSecretConfig`: a service's reference to a secret. -/
structure ServiceSecretConfig where
  Source : String
  Target : String
deriving DecidableEq, Repr

/-- The type `types.SecretConfig`: a project-level secret definition. -/
structure SecretConfig where
  Name : String
  File : String
  Environment : String
  External : Bool
deriving DecidableEq, Repr

/-- The zero value of `SecretConfig`, which a read of `cfg.Secrets` yields for
a key the map does not have. -/
def SecretConfig.zero : SecretConfig :=
  { Name := "", File := "", Environment := "", External := false }

/-- The type `types.SSHKey`. -/
structure SSHKey where
  ID : String
  Path : String

/-- The type `types.UlimitsConfig`. -/
structure UlimitsConfig where
  Single : Int
  Soft : Int
  Hard : Int

/-- The type `types.BuildConfig`, with `ExtVal` the type of the values of the
`Extensions` map (`interface{}` in Go; `none` is the nil interface). -/
structure BuildConfig (ExtVal : Type) where
  Context : String
  Dockerfile : String
  DockerfileInline : String
  Args : GoMap (Option String)
  SSH : List SSHKey
  Labels : GoMap String
  CacheFrom : List String
  CacheTo : List String
  AdditionalContexts : Option (GoMap String)
  Network : String
  Target : String
  Secrets : List ServiceSecretConfig
  ShmSize : Int
  Tags : List String
  Ulimits : GoMap UlimitsConfig
  Extensions : GoMap (Option ExtVal)

/-- The type `types.ServiceConfig`. -/
structure ServiceConfig (ExtVal : Type) where
  Name : String
  Build : Option (BuildConfig ExtVal)
  Image : String
  Environment : GoMap (Option String)

/-- The type `types.Project`, as far as the translator reads it.  `Services` is
a Go map keyed by service name; it is given by its entries in the order the
`range` loop of `ParseCompose` enumerates them. -/
structure Project (ExtVal : Type) where
  Services : List (ServiceConfig ExtVal)
  Environment : GoMap String
  Secrets : GoMap SecretConfig

/-! ## Bake types -/

/-- The bake `Target`, with the fields the translator sets. -/
structure Target where
  Name : String
  Context : Option String
  Contexts : Option (GoMap String)
  Dockerfile : Option String
  DockerfileInline : Option String
  Tags : List String
  Labels : Option (GoMap (Option String))
  Args : Option (GoMap (Option String))
  CacheFrom : List String
  CacheTo : List String
  NetworkMode : Option String
  SSH : List String
  Secrets : List String
  ShmSize : Option String
  Ulimits : List String
  Target : Option String
  Platforms : List String
  Outputs : List String
  Pull : Option Bool
  NoCache : Option Bool
  NoCacheFilter : List String
deriving DecidableEq, Repr

/-- The bake `Group`. -/
structure Group where
  Name : String
  Targets : List String
deriving DecidableEq, Repr

/-- The bake `Config`. -/
structure Config where
  Groups : List Group
  Targets : List Target
deriving DecidableEq, Repr

/-- The zero value of `Config` (`var c Config`). -/
def Config.zero : Config := { Groups := [], Targets := [] }

/-- The decoded `x-bake` extension (`type xbake struct`). -/
structure xbake where
  Tags : List String
  CacheFrom : List String
  CacheTo : List String
  Secrets : List String
  SSH : List String
  Platforms : List String
  Outputs : List String
  Pull : Option Bool
  NoCache : Option Bool
  NoCacheFilter : List String
  Contexts : GoMap String
deriving DecidableEq, Repr

/-- What `compose.go` calls and does not define.

* `loadWithContext cfgs envs projectName`: `loader.LoadWithContext` with the
  options set in `ParseCompose`;
* `sanitizeTargetName`, `validateTargetName` (`none` is a nil error): helpers
  of package `bake` defined outside `compose.go`;
* `quote`: the `%q` verb of `fmt`;
* `memBytesString`: `dockeropts.MemBytes(n).String()`;
* `parseUlimit s`: `units.ParseUlimit(s)` followed by `String()`;
* `yamlDecode ext`: `yaml.Marshal(ext)` followed by `yaml.Unmarshal` into an
  `xbake`. -/
structure Externals (ExtVal : Type) where
  loadWithContext : List ConfigFile → GoMap String → String → Except String (Project ExtVal)
  sanitizeTargetName : String → String
  validateTargetName : String → Option String
  quote : String → String
  memBytesString : Int → String
  parseUlimit : String → Except String String
  yamlDecode : ExtVal → Except String xbake

/-- The result of `os.Stat` as `loadDotEnv` looks at it. -/
inductive StatResult where
  | found
  | notExist
  | failed (msg : String)
deriving DecidableEq, Repr

/-- The process and file system that `composeEnv` and `loadDotEnv` read, the
dotenv parser, and the helper `sliceToMap` of package `bake`.

* `absJoin dir name`: `filepath.Abs(filepath.Join(dir, name))`;
* `load dt envs`: `loader.Load` of the single file `dt` with the options set
  in `validateCompose`, reduced to its error (`none` is nil). -/
structure Host where
  environ : List String
  getwd : Except String String
  absJoin : String → String → Except String String
  stat : String → StatResult
  readFile : String → Except String String
  unmarshalDotEnv : String → Except String (GoMap String)
  sliceToMap : List String → GoMap String
  load : String → GoMap String → Option String

/-! ## Helpers of package `bake` that `compose.go` calls -/

/-- Modelled from the spec: `dedupSlice` is defined outside `compose.go`; the
specification says that it deduplicates *preserving first occurrence*.  The
slice is walked from the front and a value is appended to the result unless
the result already has it. -/
def dedupSlice (s : List String) : List String :=
  s.foldl (fun res val => if val ∈ res then res else res ++ [val]) []

/-- Modelled from the spec: `dedupMap` is defined outside `compose.go`; the
specification says that it is the key-by-key union of the two maps with the
overlay winning on collision. -/
def dedupMap (existing overlay : GoMap String) : GoMap String :=
  overlay.foldl (fun res kv => mapSet res kv.1 kv.2) existing

/-- The method `MappingWithEquals.Resolve` of the Compose library
(`compose-go/v2/types`): each key whose value is nil takes the value that the
lookup function finds for the key, and stays nil when it finds none; a key with
a value keeps it. -/
def Resolve (m : GoMap (Option String)) (lookupFn : String → Option String) :
    GoMap (Option String) :=
  m.map (fun kv =>
    match kv.2 with
    | none =>
      match lookupFn kv.1 with
      | some value => (kv.1, some value)
      | none => kv
    | some _ => kv)

/-! ## `compose.go` -/

/-- The function `flatten` (lines 269-281). -/
def flatten (inp : GoMap (Option String)) : Option (GoMap (Option String)) :=
  if inp.length = 0 then none
  else some (inp.foldl (fun out kv =>
    match kv.2 with
    | none => out
    | some v => mapSet out kv.1 (some v)) [])

/-- The function `composeToBuildkitSecret` (lines 374-391). -/
def composeToBuildkitSecret (inp : ServiceSecretConfig) (psecret : SecretConfig) :
    Except String String :=
  if psecret.External then
    .error ("unsupported external secret " ++ psecret.Name)
  else
    let bkattrs : List String := []
    let bkattrs := if inp.Source ≠ "" then bkattrs ++ ["id=" ++ inp.Source] else bkattrs
    let bkattrs := if psecret.File ≠ "" then bkattrs ++ ["src=" ++ psecret.File] else bkattrs
    let bkattrs :=
      if psecret.Environment ≠ "" then bkattrs ++ ["env=" ++ psecret.Environment] else bkattrs
    .ok (stringsJoin bkattrs ",")

/-- The function `composeToBuildkitSSH` (lines 395-405). -/
def composeToBuildkitSSH (sshKey : SSHKey) : String :=
  let bkattrs : List String := []
  let bkattrs := bkattrs ++ [sshKey.ID]
  let bkattrs := if sshKey.Path ≠ "" then bkattrs ++ [sshKey.Path] else bkattrs
  stringsJoin bkattrs "="

/-- The merge of a decoded `x-bake` into the target (lines 334-367 of
`composeExtTarget`). -/
def mergeXBake (t : Target) (xb : xbake) : Target :=
  let t := if xb.Tags.length > 0 then { t with Tags := dedupSlice (t.Tags ++ xb.Tags) } else t
  let t := if xb.CacheFrom.length > 0 then
    { t with CacheFrom := dedupSlice (t.CacheFrom ++ xb.CacheFrom) } else t
  let t := if xb.CacheTo.length > 0 then
    { t with CacheTo := dedupSlice (t.CacheTo ++ xb.CacheTo) } else t
  let t := if xb.Secrets.length > 0 then
    { t with Secrets := dedupSlice (t.Secrets ++ xb.Secrets) } else t
  let t := if xb.SSH.length > 0 then
    { t with SSH := sortStrings (dedupSlice (t.SSH ++ xb.SSH)) } else t
  let t := if xb.Platforms.length > 0 then
    { t with Platforms := dedupSlice (t.Platforms ++ xb.Platforms) } else t
  let t := if xb.Outputs.length > 0 then
    { t with Outputs := dedupSlice (t.Outputs ++ xb.Outputs) } else t
  let t := if xb.Pull ≠ none then { t with Pull := xb.Pull } else t
  let t := if xb.NoCache ≠ none then { t with NoCache := xb.NoCache } else t
  let t := if xb.NoCacheFilter.length > 0 then
    { t with NoCacheFilter := dedupSlice (t.NoCacheFilter ++ xb.NoCacheFilter) } else t
  let t := if xb.Contexts.length > 0 then
    { t with Contexts := some (dedupMap (mapEntries t.Contexts) xb.Contexts) } else t
  t

/-- The method `Target.composeExtTarget` (lines 321-370): the target after the
call, or the error. -/
def composeExtTarget {ExtVal : Type} (x : Externals ExtVal) (t : Target)
    (exts : GoMap (Option ExtVal)) : Except String Target :=
  match mapGet exts "x-bake" with
  | none => .ok t
  | some none => .ok t
  | some (some ext) =>
    match x.yamlDecode ext with
    | .error err => .error err
    | .ok xb => .ok (mergeXBake t xb)

/-- The loop over `s.Build.Ulimits` (lines 111-120): each entry is printed as
`name=soft:hard`, parsed, and printed back; the first parse error aborts. -/
def ulimitsLoop {ExtVal : Type} (x : Externals ExtVal) :
    List (String × UlimitsConfig) → List String → Except String (List String)
  | [], ulimits => .ok ulimits
  | (n, u) :: rest, ulimits =>
    match x.parseUlimit (n ++ "=" ++ toString u.Soft ++ ":" ++ toString u.Hard) with
    | .error err => .error err
    | .ok ulimit => ulimitsLoop x rest (ulimits ++ [ulimit])

/-- The loop over `s.Build.Secrets` (lines 129-136): each reference is rendered
against `cfg.Secrets[bs.Source]`, the zero value when the map lacks the key;
the first error aborts. -/
def secretsLoop (cfgSecrets : GoMap SecretConfig) :
    List ServiceSecretConfig → List String → Except String (List String)
  | [], secrets => .ok secrets
  | bs :: rest, secrets =>
    let psecret :=
      match mapGet cfgSecrets bs.Source with
      | some p => p
      | none => SecretConfig.zero
    match composeToBuildkitSecret bs psecret with
    | .error err => .error err
    | .ok secret => secretsLoop cfgSecrets rest (secrets ++ [secret])

/-- The lookup function that `ParseCompose` passes to `Resolve` (lines
154-160): the service environment when it has a non-nil value for the key,
the project environment otherwise. -/
def argLookup (sEnvironment : GoMap (Option String)) (cfgEnvironment : GoMap String)
    (val : String) : Option String :=
  match mapGet sEnvironment val with
  | some (some v) => some v
  | _ => mapGet cfgEnvironment val

/-- The target as `ParseCompose` first builds it (lines 74-109 and 138-168),
from the sanitized name and the results of the ulimit and secret loops. -/
def initialTarget {ExtVal : Type} (x : Externals ExtVal) (cfg : Project ExtVal)
    (s : ServiceConfig ExtVal) (b : BuildConfig ExtVal) (targetName : String)
    (ulimits secrets : List String) : Target :=
  let contextPathP := if b.Context ≠ "" then some b.Context else none
  let dockerfilePathP := if b.Dockerfile ≠ "" then some b.Dockerfile else none
  let dockerfileInlineP := if b.DockerfileInline ≠ "" then some b.DockerfileInline else none
  let additionalContexts :=
    match b.AdditionalContexts with
    | none => none
    | some m => some (m.foldl (fun res kv => mapSet res kv.1 kv.2) [])
  let shmSize := if b.ShmSize > 0 then some (x.memBytesString b.ShmSize) else none
  let networkModeP := if b.Network ≠ "" then some b.Network else none
  let ssh := sortStrings (b.SSH.map composeToBuildkitSSH)
  let labels : GoMap (Option String) :=
    b.Labels.foldl (fun res kv => mapSet res kv.1 (some kv.2)) []
  { Name := targetName
    Context := contextPathP
    Contexts := additionalContexts
    Dockerfile := dockerfilePathP
    DockerfileInline := dockerfileInlineP
    Tags := b.Tags
    Labels := some labels
    Args := flatten (Resolve b.Args (argLookup s.Environment cfg.Environment))
    CacheFrom := b.CacheFrom
    CacheTo := b.CacheTo
    NetworkMode := networkModeP
    SSH := ssh
    Secrets := secrets
    ShmSize := shmSize
    Ulimits := ulimits
    Target := none
    Platforms := []
    Outputs := []
    Pull := none
    NoCache := none
    NoCacheFilter := [] }

/-- What `ParseCompose` does to the target after `composeExtTarget` (lines
172-178): the multi-stage target and the tag fallback. -/
def finishTarget {ExtVal : Type} (s : ServiceConfig ExtVal) (b : BuildConfig ExtVal)
    (t : Target) : Target :=
  let t := if b.Target ≠ "" then { t with Target := some b.Target } else t
  let t := if t.Tags.length = 0 ∧ s.Image ≠ "" then { t with Tags := [s.Image] } else t
  t

/-- The body of the loop of `ParseCompose` for a service `s` whose build
block is `b` (lines 69-178): the name appended to the group and the target
appended to the config, or the error that aborts the translation. -/
def translateService {ExtVal : Type} (x : Externals ExtVal) (cfg : Project ExtVal)
    (s : ServiceConfig ExtVal) (b : BuildConfig ExtVal) : Except String (String × Target) :=
  let targetName := x.sanitizeTargetName s.Name
  match x.validateTargetName targetName with
  | some err => .error ("invalid service name " ++ x.quote targetName ++ ": " ++ err)
  | none =>
    match ulimitsLoop x b.Ulimits [] with
    | .error err => .error err
    | .ok ulimits =>
      match secretsLoop cfg.Secrets b.Secrets [] with
      | .error err => .error err
      | .ok secrets =>
        match composeExtTarget x (initialTarget x cfg s b targetName ulimits secrets)
            b.Extensions with
        | .error err => .error err
        | .ok t => .ok (targetName, finishTarget s b t)

/-- The loop `for _, s := range cfg.Services` of `ParseCompose` (lines 63-180)
over the services still to visit, with the group and the config built so
far. -/
def servicesLoop {ExtVal : Type} (x : Externals ExtVal) (cfg : Project ExtVal) :
    List (ServiceConfig ExtVal) → Group → Config → Except String (Group × Config)
  | [], g, c => .ok (g, c)
  | s :: rest, g, c =>
    match s.Build with
    | none => servicesLoop x cfg rest g c
    | some b =>
      match translateService x cfg s b with
      | .error err => .error err
      | .ok (targetName, t) =>
        servicesLoop x cfg rest { g with Targets := g.Targets ++ [targetName] }
          { c with Targets := c.Targets ++ [t] }

/-- The part of `ParseCompose` after the load (lines 56-185): the translation
of the loaded project. -/
def translateProject {ExtVal : Type} (x : Externals ExtVal) (cfg : Project ExtVal) :
    Except String Config :=
  let c := Config.zero
  if cfg.Services.length > 0 then
    let c : Config := { c with Groups := [], Targets := [] }
    let g : Group := { Name := "default", Targets := [] }
    match servicesLoop x cfg cfg.Services g c with
    | .error err => .error err
    | .ok (g, c) => .ok { c with Groups := c.Groups ++ [g] }
  else
    .ok c

/-- The project name that `ParseCompose` sets in the loader options (lines
44-48). -/
def composeProjectName (envs : GoMap String) : String :=
  match mapGet envs "COMPOSE_PROJECT_NAME" with
  | some v => if v ≠ "" then v else "bake"
  | none => "bake"

/-- The function `ParseCompose` (lines 36-186); `envs` is `none` for a nil
map. -/
def ParseCompose {ExtVal : Type} (x : Externals ExtVal) (cfgs : List ConfigFile)
    (envs : Option (GoMap String)) : Except String Config :=
  let envs := mapEntries envs
  match x.loadWithContext cfgs envs (composeProjectName envs) with
  | .error err => .error err
  | .ok cfg => translateProject x cfg

/-- The function `loadDotEnv` (lines 233-267); `curenv` is `none` for a nil
map. -/
def loadDotEnv (h : Host) (curenv : Option (GoMap String)) (workingDir : String) :
    Except String (GoMap String) :=
  let curenv := mapEntries curenv
  match h.absJoin workingDir ".env" with
  | .error err => .error err
  | .ok ef =>
    match h.stat ef with
    | .notExist => .ok curenv
    | .failed err => .error err
    | .found =>
      match h.readFile ef with
      | .error err => .error err
      | .ok dt =>
        match h.unmarshalDotEnv dt with
        | .error err => .error err
        | .ok envs =>
          .ok (envs.foldl (fun curenv kv =>
            match mapGet curenv kv.1 with
            | some _ => curenv
            | none => mapSet curenv kv.1 kv.2) curenv)

/-- The function `composeEnv` (lines 222-231). -/
def composeEnv (h : Host) : Except String (GoMap String) :=
  let envs := h.sliceToMap h.environ
  match h.getwd with
  | .ok wd => loadDotEnv h (some envs) wd
  | .error _ => .ok envs

/-- The function `validateCompose` (lines 204-220): `none` is a nil error. -/
def validateCompose (h : Host) (dt : String) (envs : GoMap String) : Option String :=
  h.load dt envs

/-- The function `validateComposeFile` (lines 188-202): the pair of the
boolean and the error (`none` is nil). -/
def validateComposeFile (h : Host) (dt : String) (fn : String) : Bool × Option String :=
  match composeEnv h with
  | .error err => (true, some err)
  | .ok envs =>
    let fnl := stringsToLower fn
    if stringsHasSuffix fnl ".yml" || stringsHasSuffix fnl ".yaml" then
      (true, validateCompose h dt envs)
    else if stringsHasSuffix fnl ".json" || stringsHasSuffix fnl ".hcl" then
      (false, none)
    else
      let err := validateCompose h dt envs
      (err == none, err)

/-- The bake `File`: a name and the bytes read from it. -/
structure File where
  Name : String
  Data : String

/-- The function `ParseComposeFiles` (lines 21-34). -/
def ParseComposeFiles {ExtVal : Type} (h : Host) (x : Externals ExtVal) (fs : List File) :
    Except String Config :=
  match composeEnv h with
  | .error err => .error err
  | .ok envs =>
    ParseCompose x (fs.map (fun f => { Filename := f.Name, Content := f.Data })) (some envs)

/-! ## Vocabulary of the theorems -/

/-- The spec's words for a merged list: the list with every element that
already occurred earlier removed. -/
def firstOccurrences (l : List String) : List String :=
  (l.enum.filter (fun p => p.2 ∉ l.take p.1)).map Prod.snd

/-- The services of a project that have a build block, each with its build
block, in enumeration order. -/
def buildServices {ExtVal : Type} (cfg : Project ExtVal) :
    List (ServiceConfig ExtVal × BuildConfig ExtVal) :=
  cfg.Services.filterMap (fun s => s.Build.map (fun b => (s, b)))

/-- The decoded `x-bake` extension of an extensions map: `none` when the map
has no `x-bake` key, when its value is nil, or when it does not decode. -/
def overlay {ExtVal : Type} (x : Externals ExtVal) (exts : GoMap (Option ExtVal)) :
    Option xbake :=
  match mapGet exts "x-bake" with
  | some (some ext) =>
    match x.yamlDecode ext with
    | .ok xb => some xb
    | .error _ => none
  | _ => none

/-- The list fields that `composeExtTarget` merges by deduplication alone. -/
inductive ListField where
  | Tags
  | CacheFrom
  | CacheTo
  | Secrets
  | Platforms
  | Outputs
  | NoCacheFilter
deriving DecidableEq, Repr

/-- The value of a list field on a target. -/
def ListField.ofTarget : ListField → Target → List String
  | .Tags, t => t.Tags
  | .CacheFrom, t => t.CacheFrom
  | .CacheTo, t => t.CacheTo
  | .Secrets, t => t.Secrets
  | .Platforms, t => t.Platforms
  | .Outputs, t => t.Outputs
  | .NoCacheFilter, t => t.NoCacheFilter

/-- The value of a list field on a decoded `x-bake`. -/
def ListField.ofXBake : ListField → xbake → List String
  | .Tags, xb => xb.Tags
  | .CacheFrom, xb => xb.CacheFrom
  | .CacheTo, xb => xb.CacheTo
  | .Secrets, xb => xb.Secrets
  | .Platforms, xb => xb.Platforms
  | .Outputs, xb => xb.Outputs
  | .NoCacheFilter, xb => xb.NoCacheFilter

/-- The target after a successful `composeExtTarget`, given the decoded
`x-bake` of the build block. -/
def withOverlay (t : Target) (o : Option xbake) : Target :=
  match o with
  | some xb => mergeXBake t xb
  | none => t

/-- Regular expressions, as far as the secret shape needs them: the empty
word, a character class, a starred character class, concatenation and
alternation. -/
inductive Regex where
  | eps
  | cls (p : Char → Bool)
  | starCls (p : Char → Bool)
  | seq (a b : Regex)
  | alt (a b : Regex)

/-- The regular expression of a literal text. -/
def Regex.lit : List Char → Regex
  | [] => .eps
  | c :: cs => .seq (.cls (fun d => d == c)) (Regex.lit cs)

/-- The regular expression `r?`. -/
def Regex.opt (r : Regex) : Regex := .alt r .eps

/-- The words that a regular expression matches in full. -/
inductive Regex.Matches : Regex → List Char → Prop where
  | eps : Regex.Matches .eps []
  | cls (p : Char → Bool) (c : Char) : p c = true → Regex.Matches (.cls p) [c]
  | starNil (p : Char → Bool) : Regex.Matches (.starCls p) []
  | starCons (p : Char → Bool) (c : Char) (s : List Char) :
      p c = true → Regex.Matches (.starCls p) s → Regex.Matches (.starCls p) (c :: s)
  | seq (a b : Regex) (s t : List Char) :
      Regex.Matches a s → Regex.Matches b t → Regex.Matches (.seq a b) (s ++ t)
  | altLeft (a b : Regex) (s : List Char) : Regex.Matches a s → Regex.Matches (.alt a b) s
  | altRight (a b : Regex) (s : List Char) : Regex.Matches b s → Regex.Matches (.alt a b) s

/-- The matcher of a starred class: the class takes some characters off the
front of the text and the continuation `k` accepts what is left. -/
def Regex.starK (p : Char → Bool) (k : List Char → Bool) : List Char → Bool
  | [] => k []
  | c :: s => k (c :: s) || (p c && Regex.starK p k s)

/-- The backtracking matcher: the expression takes a word off the front of the
text and the continuation `k` accepts what is left. -/
def Regex.matchK : Regex → List Char → (List Char → Bool) → Bool
  | .eps, s, k => k s
  | .cls _, [], _ => false
  | .cls p, c :: s, k => p c && k s
  | .starCls p, s, k => Regex.starK p k s
  | .seq a b, s, k => Regex.matchK a s (fun rest => Regex.matchK b rest k)
  | .alt a b, s, k => Regex.matchK a s k || Regex.matchK b s k

/-- The anchored match `^r$` of a string. -/
def Regex.fullMatch (r : Regex) (s : String) : Bool :=
  r.matchK s.data List.isEmpty

/-- The class `[^,]`. -/
def notComma (c : Char) : Bool := c != ','

/-- The expression `^(id=[^,]*)?(,?src=[^,]*)?(,?env=[^,]*)?$` of the
specification. -/
def secretShape : Regex :=
  .seq (Regex.opt (.seq (Regex.lit "id=".data) (.starCls notComma)))
    (.seq
      (Regex.opt (.seq (Regex.opt (Regex.lit ",".data))
        (.seq (Regex.lit "src=".data) (.starCls notComma))))
      (Regex.opt (.seq (Regex.opt (Regex.lit ",".data))
        (.seq (Regex.lit "env=".data) (.starCls notComma)))))

/-- The comma-separated pieces of a text. -/
def splitComma : List Char → List (List Char)
  | [] => [[]]
  | c :: cs =>
    if c = ',' then [] :: splitComma cs
    else
      match splitComma cs with
      | [] => [[c]]
      | piece :: pieces => (c :: piece) :: pieces

/-- The number of attributes of a rendered secret that start with `key`, the
attributes being its comma-separated pieces. -/
def attributeCount (key : String) (s : String) : Nat :=
  ((splitComma s.data).filter (fun piece => key.data.isPrefixOf piece)).length

/-! ## Sample inputs -/

/-- Sample collaborators: the loader returns `cfg`, the name helpers turn a
dot into an underscore and accept every name, and an extension value is its
own decoding. -/
def sampleExternals (cfg : Project xbake) : Externals xbake :=
  { loadWithContext := fun _ _ _ => .ok cfg
    sanitizeTargetName := fun s => String.mk (s.data.map (fun c => if c = '.' then '_' else c))
    validateTargetName := fun _ => none
    quote := fun s => "\"" ++ s ++ "\""
    memBytesString := fun n => toString n
    parseUlimit := fun s => .ok s
    yamlDecode := fun xb => .ok xb }

/-- A build block with context `.` and nothing else. -/
def sampleBuild : BuildConfig xbake :=
  { Context := "."
    Dockerfile := ""
    DockerfileInline := ""
    Args := []
    SSH := []
    Labels := []
    CacheFrom := []
    CacheTo := []
    AdditionalContexts := none
    Network := ""
    Target := ""
    Secrets := []
    ShmSize := 0
    Tags := []
    Ulimits := []
    Extensions := [] }

/-- An `x-bake` extension with no field set. -/
def sampleXBake : xbake :=
  { Tags := []
    CacheFrom := []
    CacheTo := []
    Secrets := []
    SSH := []
    Platforms := []
    Outputs := []
    Pull := none
    NoCache := none
    NoCacheFilter := []
    Contexts := [] }

/-- The secret reference `token` of a service. -/
def tokenRef : ServiceSecretConfig := { Source := "token", Target := "" }

/-- The project secret `token: { external: true, name: prod_token }`. -/
def externalToken : SecretConfig :=
  { Name := "prod_token", File := "", Environment := "", External := true }

/-- The project secret `token: { external: true }` as the loader of
`ParseCompose`, which skips normalization, hands it over: without a name. -/
def unnamedExternalToken : SecretConfig :=
  { Name := "", File := "", Environment := "", External := true }

/-- A project whose service `s` builds `.` with the external secret `token`. -/
def externalSecretProject : Project xbake :=
  { Services :=
      [{ Name := "s", Build := some { sampleBuild with Secrets := [tokenRef] }, Image := "",
         Environment := [] }]
    Environment := []
    Secrets := [("token", externalToken)] }

/-- The target of a build block that has a context and nothing else. -/
def plainTarget (name context : String) : Target :=
  { Name := name
    Context := some context
    Contexts := none
    Dockerfile := none
    DockerfileInline := none
    Tags := []
    Labels := some []
    Args := none
    CacheFrom := []
    CacheTo := []
    NetworkMode := none
    SSH := []
    Secrets := []
    ShmSize := none
    Ulimits := []
    Target := none
    Platforms := []
    Outputs := []
    Pull := none
    NoCache := none
    NoCacheFilter := [] }

/-- The project of the service `api` with image `myorg/api:1.2`, built from
`./api`. -/
def fallbackProject : Project xbake :=
  { Services :=
      [{ Name := "api", Build := some { sampleBuild with Context := "./api" },
         Image := "myorg/api:1.2", Environment := [] }]
    Environment := []
    Secrets := [] }

/-- The project of `fallbackProject` with `x-bake: { tags: [myorg/api:dev] }`
on the build block. -/
def overlayTagsProject : Project xbake :=
  { Services :=
      [{ Name := "api"
         Build := some { sampleBuild with
           Context := "./api"
           Extensions := [("x-bake", some { sampleXBake with Tags := ["myorg/api:dev"] })] }
         Image := "myorg/api:1.2"
         Environment := [] }]
    Environment := []
    Secrets := [] }

/-- A target built from `.` whose tag list repeats `a`. -/
def repeatedTagsTarget : Target :=
  { plainTarget "app" "." with Tags := ["a", "a"] }

/-- An extensions map whose `x-bake` is `{ platforms: [linux/amd64], tags: [] }`. -/
def platformsOnlyExts : GoMap (Option xbake) :=
  [("x-bake", some { sampleXBake with Platforms := ["linux/amd64"] })]

/-- A project without services. -/
def emptyProject : Project xbake :=
  { Services := [], Environment := [], Secrets := [] }

/-- A project with a service `db` that has no build block and a service
`web.app` built from `.`. -/
def twoServicesProject : Project xbake :=
  { Services :=
      [{ Name := "db", Build := none, Image := "postgres", Environment := [] },
       { Name := "web.app", Build := some sampleBuild, Image := "", Environment := [] }]
    Environment := []
    Secrets := [] }

/-- The project of a service `app` built from `.` with the SSH keys `default`
and `agent=/run/agent.sock`, whose `x-bake` adds `ssh: [default, backup]`. -/
def sshProject : Project xbake :=
  { Services :=
      [{ Name := "app"
         Build := some { sampleBuild with
           SSH := [{ ID := "default", Path := "" }, { ID := "agent", Path := "/run/agent.sock" }]
           Extensions := [("x-bake", some { sampleXBake with SSH := ["default", "backup"] })] }
         Image := ""
         Environment := [] }]
    Environment := []
    Secrets := [] }

/-- A host whose process environment is `FOO=fromproc`, whose directory
`/work` has a `.env` file that parses to `FOO=fromfile`, `BAR=fromfile`, and
whose other directories have none; every file validates. -/
def sampleHost : Host :=
  { environ := ["FOO=fromproc"]
    getwd := .ok "/work"
    absJoin := fun dir name => .ok (dir ++ "/" ++ name)
    stat := fun path => if path = "/work/.env" then .found else .notExist
    readFile := fun _ => .ok "FOO=fromfile\nBAR=fromfile"
    unmarshalDotEnv := fun _ => .ok [("FOO", "fromfile"), ("BAR", "fromfile")]
    sliceToMap := fun _ => [("FOO", "fromproc")]
    load := fun _ _ => none }

/-- The host `sampleHost` with the `.env` file `FOO!=1`, which does not parse. -/
def brokenDotEnvHost : Host :=
  { sampleHost with
    readFile := fun _ => .ok "FOO!=1"
    unmarshalDotEnv := fun _ => .error "unexpected character in variable name" }

/-- The project of a service `app` with environment `FOO=svc`, `BAR` unset,
built from `.` with the build arguments `FOO`, `BAR`, `BAZ` left unresolved and
`QUX=1`, in a project environment with `BAR=proj`. -/
def argsProject : Project xbake :=
  { Services :=
      [{ Name := "app"
         Build := some { sampleBuild with
           Args := [("FOO", none), ("BAR", none), ("BAZ", none), ("QUX", some "1")] }
         Image := ""
         Environment := [("FOO", some "svc"), ("BAR", none)] }]
    Environment := [("BAR", "proj")]
    Secrets := [] }

/-- The project secret `token: { file: "./keys/a,id=b" }`, whose file name
has a comma. -/
def commaFileSecret : SecretConfig :=
  { Name := "token", File := "./keys/a,id=b", Environment := "", External := false }

/-- The service `a`, built from `./a`. -/
def serviceA : ServiceConfig xbake :=
  { Name := "a", Build := some { sampleBuild with Context := "./a" }, Image := "",
    Environment := [] }

/-- The service `b`, built from `./b`. -/
def serviceB : ServiceConfig xbake :=
  { Name := "b", Build := some { sampleBuild with Context := "./b" }, Image := "",
    Environment := [] }

/-- The project of the services `a` and `b`, its services map enumerated as
`a`, `b`. -/
def orderProjectAB : Project xbake :=
  { Services := [serviceA, serviceB], Environment := [], Secrets := [] }

/-- The project of `orderProjectAB`, its services map enumerated as `b`, `a`. -/
def orderProjectBA : Project xbake :=
  { Services := [serviceB, serviceA], Environment := [], Secrets := [] }

/-- The ulimit `nofile` with soft limit 1024 and hard limit 2048. -/
def ulimitNofile : String × UlimitsConfig := ("nofile", { Single := 0, Soft := 1024, Hard := 2048 })

/-- The ulimit `nproc` with soft limit 512 and hard limit 1024. -/
def ulimitNproc : String × UlimitsConfig := ("nproc", { Single := 0, Soft := 512, Hard := 1024 })

/-- The project of a service `app` built from `.` with the ulimits map given
by the enumeration `ulimits`. -/
def ulimitsProject (ulimits : GoMap UlimitsConfig) : Project xbake :=
  { Services :=
      [{ Name := "app", Build := some { sampleBuild with Ulimits := ulimits }, Image := "",
         Environment := [] }]
    Environment := []
    Secrets := [] }

/-! ## Lemmas -/

theorem secretsLoop_external (cfgSecrets : GoMap SecretConfig) (bs : ServiceSecretConfig)
    (p : SecretConfig) (hget : mapGet cfgSecrets bs.Source = some p) (hext : p.External = true) :
    ∀ (refs : List ServiceSecretConfig) (acc : List String), bs ∈ refs →
      ∃ err, secretsLoop cfgSecrets refs acc = .error err := by
  intro refs
  induction refs with
  | nil => intro acc hmem; simp at hmem
  | cons r rest ih =>
    intro acc hmem
    unfold secretsLoop
    cases hr : composeToBuildkitSecret r
        (match mapGet cfgSecrets r.Source with
          | some p => p
          | none => SecretConfig.zero) with
    | error e => exact ⟨e, by simp [hr]⟩
    | ok v =>
      simp only [hr]
      rcases List.mem_cons.mp hmem with h | h
      · subst h
        simp [hget, composeToBuildkitSecret, hext] at hr
      · exact ih _ h

theorem translateService_secret_error {ExtVal : Type} (x : Externals ExtVal)
    (cfg : Project ExtVal) (s : ServiceConfig ExtVal) (b : BuildConfig ExtVal)
    (h : ∃ err, secretsLoop cfg.Secrets b.Secrets [] = .error err) :
    ∃ err, translateService x cfg s b = .error err := by
  obtain ⟨e, he⟩ := h
  cases hv : x.validateTargetName (x.sanitizeTargetName s.Name) with
  | some err => simp only [translateService, hv]; exact ⟨_, rfl⟩
  | none =>
    cases hu : ulimitsLoop x b.Ulimits [] with
    | error err => simp only [translateService, hv, hu]; exact ⟨_, rfl⟩
    | ok ul => simp only [translateService, hv, hu, he]; exact ⟨_, rfl⟩

theorem servicesLoop_error {ExtVal : Type} (x : Externals ExtVal) (cfg : Project ExtVal)
    (s : ServiceConfig ExtVal) (b : BuildConfig ExtVal) (hb : s.Build = some b)
    (herr : ∃ err, translateService x cfg s b = .error err) :
    ∀ (ss : List (ServiceConfig ExtVal)) (g : Group) (c : Config), s ∈ ss →
      ∃ err, servicesLoop x cfg ss g c = .error err := by
  intro ss
  induction ss with
  | nil => intro g c hmem; simp at hmem
  | cons s0 rest ih =>
    intro g c hmem
    unfold servicesLoop
    cases hb0 : s0.Build with
    | none =>
      rcases List.mem_cons.mp hmem with h | h
      · subst h; rw [hb] at hb0; cases hb0
      · exact ih _ _ h
    | some b0 =>
      cases ht : translateService x cfg s0 b0 with
      | error e => exact ⟨e, by simp [ht]⟩
      | ok nt =>
        obtain ⟨n, t⟩ := nt
        simp only [ht]
        rcases List.mem_cons.mp hmem with h | h
        · subst h
          rw [hb] at hb0; cases hb0
          obtain ⟨e, he⟩ := herr
          rw [he] at ht; cases ht
        · exact ih _ _ h


theorem dedupSlice_append_singleton (l : List String) (a : String) :
    dedupSlice (l ++ [a]) = if a ∈ dedupSlice l then dedupSlice l else dedupSlice l ++ [a] := by
  simp [dedupSlice, List.foldl_append]

theorem mem_dedupSlice (l : List String) (a : String) : a ∈ dedupSlice l ↔ a ∈ l := by
  induction l using List.reverseRecOn with
  | nil => simp [dedupSlice]
  | append_singleton l b ih =>
    rw [dedupSlice_append_singleton]
    by_cases hb : b ∈ dedupSlice l
    · simp only [hb, if_true, List.mem_append, List.mem_singleton]
      constructor
      · intro h; exact Or.inl (ih.mp h)
      · rintro (h | h)
        · exact ih.mpr h
        · subst h; exact hb
    · simp only [hb, if_false, List.mem_append, List.mem_singleton, ih]

theorem dedupSlice_nodup (l : List String) : (dedupSlice l).Nodup := by
  induction l using List.reverseRecOn with
  | nil => simp [dedupSlice]
  | append_singleton l b ih =>
    rw [dedupSlice_append_singleton]
    by_cases hb : b ∈ dedupSlice l
    · simpa [hb] using ih
    · simp only [hb, if_false]
      rw [List.nodup_append]
      refine ⟨ih, List.nodup_singleton b, ?_⟩
      intro a ha hab
      rw [List.mem_singleton] at hab
      subst hab
      exact hb ha

theorem dedupSlice_sublist (l : List String) : (dedupSlice l).Sublist l := by
  induction l using List.reverseRecOn with
  | nil => simp [dedupSlice]
  | append_singleton l b ih =>
    rw [dedupSlice_append_singleton]
    by_cases hb : b ∈ dedupSlice l
    · simp only [hb, if_true]
      exact ih.trans (List.sublist_append_left l [b])
    · simp only [hb, if_false]
      exact List.Sublist.append ih (List.Sublist.refl _)

theorem firstOccurrences_append_singleton (l : List String) (a : String) :
    firstOccurrences (l ++ [a]) =
      if a ∈ l then firstOccurrences l else firstOccurrences l ++ [a] := by
  unfold firstOccurrences
  rw [List.enum_append, List.filter_append, List.map_append]
  have h1 : (l.enum.filter (fun p => p.2 ∉ (l ++ [a]).take p.1)) =
      (l.enum.filter (fun p => p.2 ∉ l.take p.1)) := by
    apply List.filter_congr
    intro p hp
    have hlt : p.1 < l.length := by
      obtain ⟨i, b⟩ := p
      have hget := List.mk_mem_enum_iff_getElem?.mp hp
      exact (List.getElem?_eq_some.mp hget).1
    rw [List.take_append_of_le_length (Nat.le_of_lt hlt)]
  rw [h1]
  by_cases ha : a ∈ l <;> simp [List.enumFrom, ha]

theorem dedupSlice_eq_firstOccurrences (l : List String) :
    dedupSlice l = firstOccurrences l := by
  induction l using List.reverseRecOn with
  | nil => simp [dedupSlice, firstOccurrences]
  | append_singleton l b ih =>
    rw [dedupSlice_append_singleton, firstOccurrences_append_singleton, ih]
    by_cases hb : b ∈ l
    · have hb2 : b ∈ firstOccurrences l := by rw [← ih]; exact (mem_dedupSlice l b).mpr hb
      simp [hb, hb2]
    · have hb2 : ¬ b ∈ firstOccurrences l := by
        rw [← ih]; exact fun h => hb ((mem_dedupSlice l b).mp h)
      simp [hb, hb2]

theorem mergeXBake_Name (t : Target) (xb : xbake) : (mergeXBake t xb).Name = t.Name := by
  simp only [mergeXBake, apply_ite Target.Name, ite_self]

theorem mergeXBake_Args (t : Target) (xb : xbake) : (mergeXBake t xb).Args = t.Args := by
  simp only [mergeXBake, apply_ite Target.Args, ite_self]

theorem mergeXBake_Tags (t : Target) (xb : xbake) :
    (mergeXBake t xb).Tags =
      if xb.Tags.length > 0 then dedupSlice (t.Tags ++ xb.Tags) else t.Tags := by
  simp only [mergeXBake, apply_ite Target.Tags, ite_self]

theorem mergeXBake_SSH (t : Target) (xb : xbake) :
    (mergeXBake t xb).SSH =
      if xb.SSH.length > 0 then sortStrings (dedupSlice (t.SSH ++ xb.SSH)) else t.SSH := by
  simp only [mergeXBake, apply_ite Target.SSH, ite_self]

theorem mergeXBake_listField (f : ListField) (t : Target) (xb : xbake) :
    f.ofTarget (mergeXBake t xb) =
      if (f.ofXBake xb).length > 0 then dedupSlice (f.ofTarget t ++ f.ofXBake xb)
      else f.ofTarget t := by
  cases f
  · simp only [ListField.ofTarget, ListField.ofXBake, mergeXBake, apply_ite Target.Tags, ite_self]
  · simp only [ListField.ofTarget, ListField.ofXBake, mergeXBake, apply_ite Target.CacheFrom,
      ite_self]
  · simp only [ListField.ofTarget, ListField.ofXBake, mergeXBake, apply_ite Target.CacheTo,
      ite_self]
  · simp only [ListField.ofTarget, ListField.ofXBake, mergeXBake, apply_ite Target.Secrets,
      ite_self]
  · simp only [ListField.ofTarget, ListField.ofXBake, mergeXBake, apply_ite Target.Platforms,
      ite_self]
  · simp only [ListField.ofTarget, ListField.ofXBake, mergeXBake, apply_ite Target.Outputs,
      ite_self]
  · simp only [ListField.ofTarget, ListField.ofXBake, mergeXBake,
      apply_ite Target.NoCacheFilter, ite_self]

theorem sortStrings_sorted (l : List String) : (sortStrings l).Sorted (· ≤ ·) := by
  have htotal : IsTotal String (fun a b => a.data ≤ b.data) :=
    ⟨fun a b => by
      have := le_total a b
      simpa only [String.le_iff_toList_le] using this⟩
  have htrans : IsTrans String (fun a b => a.data ≤ b.data) :=
    ⟨fun a b c hab hbc => by
      have h1 : a ≤ b := String.le_iff_toList_le.mpr hab
      have h2 : b ≤ c := String.le_iff_toList_le.mpr hbc
      exact String.le_iff_toList_le.mp (le_trans h1 h2)⟩
  have h := List.sorted_insertionSort (fun (a b : String) => a.data ≤ b.data) l
  exact List.Pairwise.imp (fun hab => String.le_iff_toList_le.mpr hab) h

theorem sortStrings_perm (l : List String) : (sortStrings l).Perm l :=
  List.perm_insertionSort _ l

theorem composeExtTarget_ok {ExtVal : Type} (x : Externals ExtVal) (t t' : Target)
    (exts : GoMap (Option ExtVal)) (h : composeExtTarget x t exts = .ok t') :
    t' = withOverlay t (overlay x exts) := by
  unfold composeExtTarget at h
  unfold overlay
  cases hg : mapGet exts "x-bake" with
  | none => simp only [hg] at h; cases h; rfl
  | some o =>
    cases o with
    | none => simp only [hg] at h; cases h; rfl
    | some ext =>
      simp only [hg] at h ⊢
      cases hd : x.yamlDecode ext with
      | error e => simp only [hd] at h; cases h
      | ok xb => simp only [hd] at h; cases h; rfl

theorem translateService_ok {ExtVal : Type} (x : Externals ExtVal) (cfg : Project ExtVal)
    (s : ServiceConfig ExtVal) (b : BuildConfig ExtVal) (n : String) (t : Target)
    (h : translateService x cfg s b = .ok (n, t)) :
    n = x.sanitizeTargetName s.Name ∧
      ∃ ulimits secrets, ulimitsLoop x b.Ulimits [] = .ok ulimits ∧
        secretsLoop cfg.Secrets b.Secrets [] = .ok secrets ∧
        t = finishTarget s b
          (withOverlay (initialTarget x cfg s b n ulimits secrets) (overlay x b.Extensions)) := by
  unfold translateService at h
  cases hv : x.validateTargetName (x.sanitizeTargetName s.Name) with
  | some err => simp only [hv] at h; cases h
  | none =>
    cases hu : ulimitsLoop x b.Ulimits [] with
    | error err => simp only [hv, hu] at h; cases h
    | ok ul =>
      cases hs : secretsLoop cfg.Secrets b.Secrets [] with
      | error err => simp only [hv, hu, hs] at h; cases h
      | ok sec =>
        cases hc : composeExtTarget x
            (initialTarget x cfg s b (x.sanitizeTargetName s.Name) ul sec) b.Extensions with
        | error err => simp only [hv, hu, hs, hc] at h; cases h
        | ok t0 =>
          simp only [hv, hu, hs, hc] at h
          cases h
          exact ⟨rfl, ul, sec, rfl, rfl, by rw [composeExtTarget_ok x _ _ _ hc]⟩

theorem servicesLoop_ok {ExtVal : Type} (x : Externals ExtVal) (cfg : Project ExtVal) :
    ∀ (ss : List (ServiceConfig ExtVal)) (g g' : Group) (c c' : Config),
      servicesLoop x cfg ss g c = .ok (g', c') →
      ∃ nts : List (String × Target),
        List.Forall₂ (fun sb nt => translateService x cfg sb.1 sb.2 = .ok nt)
          (ss.filterMap (fun s => s.Build.map (fun b => (s, b)))) nts ∧
        g' = { g with Targets := g.Targets ++ nts.map Prod.fst } ∧
        c' = { c with Targets := c.Targets ++ nts.map Prod.snd } := by
  intro ss
  induction ss with
  | nil =>
    intro g g' c c' h
    simp only [servicesLoop] at h
    cases h
    exact ⟨[], by simp⟩
  | cons s rest ih =>
    intro g g' c c' h
    unfold servicesLoop at h
    cases hb : s.Build with
    | none =>
      simp only [hb] at h
      obtain ⟨nts, h1, h2, h3⟩ := ih _ _ _ _ h
      exact ⟨nts, by simpa [List.filterMap_cons, hb] using h1, h2, h3⟩
    | some b =>
      simp only [hb] at h
      cases ht : translateService x cfg s b with
      | error e => simp only [ht] at h; cases h
      | ok nt =>
        obtain ⟨n, t⟩ := nt
        simp only [ht] at h
        obtain ⟨nts, h1, h2, h3⟩ := ih _ _ _ _ h
        refine ⟨(n, t) :: nts, ?_, ?_, ?_⟩
        · simp only [List.filterMap_cons, hb, Option.map_some']
          exact List.Forall₂.cons ht h1
        · simp [h2]
        · simp [h3]

theorem parseCompose_ok {ExtVal : Type} (x : Externals ExtVal) (cfgs : List ConfigFile)
    (envs : Option (GoMap String)) (cfg : Project ExtVal) (c : Config)
    (hload : x.loadWithContext cfgs (mapEntries envs) (composeProjectName (mapEntries envs)) =
      .ok cfg)
    (hok : ParseCompose x cfgs envs = .ok c) :
    (cfg.Services = [] ∧ c = Config.zero) ∨
      (cfg.Services ≠ [] ∧ ∃ nts : List (String × Target),
        List.Forall₂ (fun sb nt => translateService x cfg sb.1 sb.2 = .ok nt)
          (buildServices cfg) nts ∧
        c = { Groups := [{ Name := "default", Targets := nts.map Prod.fst }],
              Targets := nts.map Prod.snd }) := by
  simp only [ParseCompose, hload, translateProject] at hok
  by_cases hne : cfg.Services.length > 0
  · right
    refine ⟨List.ne_nil_of_length_pos hne, ?_⟩
    simp only [hne, if_true] at hok
    cases hl : servicesLoop x cfg cfg.Services { Name := "default", Targets := [] }
        { Config.zero with Groups := [], Targets := [] } with
    | error e => simp only [hl] at hok; cases hok
    | ok gc =>
      obtain ⟨g', c'⟩ := gc
      simp only [hl] at hok
      obtain ⟨nts, h1, h2, h3⟩ := servicesLoop_ok x cfg _ _ _ _ _ hl
      refine ⟨nts, h1, ?_⟩
      cases hok
      subst h2 h3
      simp
  · left
    simp only [hne, if_false] at hok
    cases hok
    exact ⟨List.length_eq_zero.mp (by omega), rfl⟩

theorem parseCompose_targets {ExtVal : Type} (x : Externals ExtVal) (cfgs : List ConfigFile)
    (envs : Option (GoMap String)) (cfg : Project ExtVal) (c : Config)
    (hload : x.loadWithContext cfgs (mapEntries envs) (composeProjectName (mapEntries envs)) =
      .ok cfg)
    (hok : ParseCompose x cfgs envs = .ok c) :
    List.Forall₂ (fun sb t => ∃ ulimits secrets,
        t = finishTarget sb.1 sb.2
          (withOverlay
            (initialTarget x cfg sb.1 sb.2 (x.sanitizeTargetName sb.1.Name) ulimits secrets)
            (overlay x sb.2.Extensions)))
      (buildServices cfg) c.Targets := by
  rcases parseCompose_ok x cfgs envs cfg c hload hok with ⟨hnil, hc⟩ | ⟨_, nts, hall, hc⟩
  · subst hc
    simp [buildServices, hnil, Config.zero]
  · subst hc
    rw [List.forall₂_map_right_iff]
    refine hall.imp ?_
    intro sb nt h
    obtain ⟨n, t⟩ := nt
    obtain ⟨hn, ul, sec, _, _, ht⟩ := translateService_ok x cfg sb.1 sb.2 n t h
    subst hn
    exact ⟨ul, sec, ht⟩

theorem finishTarget_Tags {ExtVal : Type} (s : ServiceConfig ExtVal) (b : BuildConfig ExtVal)
    (t : Target) :
    (finishTarget s b t).Tags = if t.Tags.length = 0 ∧ s.Image ≠ "" then [s.Image] else t.Tags := by
  unfold finishTarget
  by_cases h1 : b.Target ≠ "" <;> by_cases h2 : s.Image ≠ "" <;>
    by_cases h3 : t.Tags.length = 0 <;> simp [h1, h2, h3]

theorem finishTarget_Name {ExtVal : Type} (s : ServiceConfig ExtVal) (b : BuildConfig ExtVal)
    (t : Target) : (finishTarget s b t).Name = t.Name := by
  simp only [finishTarget, apply_ite Target.Name, ite_self]

theorem finishTarget_SSH {ExtVal : Type} (s : ServiceConfig ExtVal) (b : BuildConfig ExtVal)
    (t : Target) : (finishTarget s b t).SSH = t.SSH := by
  simp only [finishTarget, apply_ite Target.SSH, ite_self]

theorem finishTarget_Args {ExtVal : Type} (s : ServiceConfig ExtVal) (b : BuildConfig ExtVal)
    (t : Target) : (finishTarget s b t).Args = t.Args := by
  simp only [finishTarget, apply_ite Target.Args, ite_self]

theorem withOverlay_Name (t : Target) (o : Option xbake) : (withOverlay t o).Name = t.Name := by
  cases o with
  | none => rfl
  | some xb => exact mergeXBake_Name t xb

theorem withOverlay_Args (t : Target) (o : Option xbake) : (withOverlay t o).Args = t.Args := by
  cases o with
  | none => rfl
  | some xb => exact mergeXBake_Args t xb

theorem buildServices_map_fst {ExtVal : Type} (cfg : Project ExtVal) :
    (buildServices cfg).map Prod.fst = cfg.Services.filter (fun s => s.Build.isSome) := by
  unfold buildServices
  induction cfg.Services with
  | nil => rfl
  | cons s rest ih =>
    cases hb : s.Build with
    | none => simp [List.filterMap_cons, hb, ih]
    | some b => simp [List.filterMap_cons, hb, ih]

theorem composeToBuildkitSSH_eq (key : SSHKey) :
    composeToBuildkitSSH key = if key.Path = "" then key.ID else key.ID ++ "=" ++ key.Path := by
  by_cases h : key.Path = "" <;>
    simp [composeToBuildkitSSH, h, stringsJoin, String.intercalate, String.intercalate.go]

theorem withOverlay_SSH_sorted (t : Target) (o : Option xbake)
    (h : t.SSH.Sorted (· ≤ ·)) : (withOverlay t o).SSH.Sorted (· ≤ ·) := by
  cases o with
  | none => exact h
  | some xb =>
    simp only [withOverlay, mergeXBake_SSH]
    by_cases hx : xb.SSH.length > 0
    · simp only [hx, if_true]; exact sortStrings_sorted _
    · simp only [hx, if_false]; exact h

theorem translateService_names {ExtVal : Type} (x : Externals ExtVal) (cfg : Project ExtVal)
    (sbs : List (ServiceConfig ExtVal × BuildConfig ExtVal)) (nts : List (String × Target))
    (hall : List.Forall₂ (fun sb nt => translateService x cfg sb.1 sb.2 = .ok nt) sbs nts) :
    nts.map Prod.fst = (nts.map Prod.snd).map Target.Name := by
  induction hall with
  | nil => rfl
  | @cons sb nt _ _ h _ ih =>
    obtain ⟨n, t⟩ := nt
    obtain ⟨_, ul, sec, _, _, ht⟩ := translateService_ok x cfg sb.1 sb.2 n t h
    have hname : t.Name = n := by
      rw [ht, finishTarget_Name, withOverlay_Name]
      rfl
    simp [hname, ih]

theorem mapGet_mapSet {V : Type} (m : GoMap V) (k : String) (v : V) (k' : String) :
    mapGet (mapSet m k v) k' = if k = k' then some v else mapGet m k' := by
  induction m with
  | nil => simp [mapSet, mapGet]
  | cons kv rest ih =>
    obtain ⟨k0, v0⟩ := kv
    by_cases h0 : k0 = k
    · subst h0
      by_cases h1 : k0 = k' <;> simp [mapSet, mapGet, h1]
    · by_cases h1 : k0 = k'
      · subst h1
        simp [mapSet, mapGet, h0, Ne.symm h0]
      · simp [mapSet, mapGet, h0, h1, ih]

theorem mapGet_of_not_mem_keys {V : Type} (m : GoMap V) (k : String) (h : k ∉ mapKeys m) :
    mapGet m k = none := by
  induction m with
  | nil => rfl
  | cons kv rest ih =>
    obtain ⟨k0, v0⟩ := kv
    simp only [mapKeys, List.map_cons, List.mem_cons, not_or] at h
    simp only [mapGet, Ne.symm h.1, if_false]
    exact ih h.2

theorem dotEnvLoop_get (envs curenv : GoMap String) (k : String) :
    mapGet (envs.foldl (fun curenv kv =>
        match mapGet curenv kv.1 with
        | some _ => curenv
        | none => mapSet curenv kv.1 kv.2) curenv) k =
      match mapGet curenv k with
      | some v => some v
      | none => mapGet envs k := by
  induction envs generalizing curenv with
  | nil => cases h : mapGet curenv k <;> simp [h, mapGet]
  | cons kv rest ih =>
    obtain ⟨k0, v0⟩ := kv
    rw [List.foldl_cons, ih]
    cases h0 : mapGet curenv k0 with
    | some w =>
      simp only []
      cases hk : mapGet curenv k with
      | some v => rfl
      | none =>
        have hne : k0 ≠ k := by
          intro e; subst e; rw [h0] at hk; cases hk
        simp [mapGet, hne]
    | none =>
      simp only [mapGet_mapSet]
      by_cases hk0 : k0 = k
      · subst hk0
        simp [h0, mapGet]
      · simp only [hk0, if_false]
        cases hk : mapGet curenv k with
        | some v => rfl
        | none => simp [mapGet, hk0]

theorem flattenLoop_get (m out : GoMap (Option String)) (hnodup : (mapKeys m).Nodup)
    (k : String) :
    mapGet (m.foldl (fun out kv =>
        match kv.2 with
        | none => out
        | some v => mapSet out kv.1 (some v)) out) k =
      match mapGet m k with
      | some (some v) => some (some v)
      | _ => mapGet out k := by
  induction m generalizing out with
  | nil => rfl
  | cons kv rest ih =>
    obtain ⟨k0, v0⟩ := kv
    simp only [mapKeys, List.map_cons, List.nodup_cons] at hnodup
    rw [List.foldl_cons, ih _ hnodup.2]
    by_cases hk0 : k0 = k
    · subst hk0
      rw [mapGet_of_not_mem_keys rest k0 hnodup.1]
      cases v0 with
      | none => simp [mapGet]
      | some v => simp [mapGet, mapGet_mapSet]
    · cases v0 with
      | none => simp [mapGet, hk0]
      | some v => simp [mapGet, hk0, mapGet_mapSet]

theorem mapKeys_Resolve (m : GoMap (Option String)) (f : String → Option String) :
    mapKeys (Resolve m f) = mapKeys m := by
  induction m with
  | nil => rfl
  | cons kv rest ih =>
    obtain ⟨k0, v0⟩ := kv
    simp only [mapKeys, Resolve, List.map_cons, List.map_map] at ih ⊢
    cases v0 with
    | none => cases hf : f k0 <;> simp [ih]
    | some v => simp [ih]

theorem mapGet_Resolve (m : GoMap (Option String)) (f : String → Option String) (k : String) :
    mapGet (Resolve m f) k =
      match mapGet m k with
      | none => none
      | some (some v) => some (some v)
      | some none => some (f k) := by
  induction m with
  | nil => rfl
  | cons kv rest ih =>
    obtain ⟨k0, v0⟩ := kv
    have hcons : Resolve ((k0, v0) :: rest) f =
        (match v0 with
          | none =>
            match f k0 with
            | some value => (k0, some value)
            | none => (k0, none)
          | some _ => (k0, v0)) :: Resolve rest f := by
      cases v0 <;> rfl
    rw [hcons]
    by_cases hk0 : k0 = k
    · subst hk0
      cases v0 with
      | none => cases hf : f k0 <;> simp [mapGet, hf]
      | some v => simp [mapGet]
    · cases v0 with
      | none => cases hf : f k0 <;> simp [mapGet, hk0, ih]
      | some v => simp [mapGet, hk0, ih]

theorem flatten_get (m : GoMap (Option String)) (hnodup : (mapKeys m).Nodup) (k : String) :
    mapGetNil (flatten m) k =
      match mapGet m k with
      | some (some v) => some (some v)
      | _ => none := by
  unfold flatten
  by_cases hlen : m.length = 0
  · have hm : m = [] := List.length_eq_zero.mp hlen
    subst hm
    rfl
  · simp only [hlen, if_false, mapGetNil]
    rw [flattenLoop_get m [] hnodup k]
    rfl

theorem stringsHasSuffix_last_two (s suffix : String) (c1 c2 : Char) (rest : List Char)
    (hsuffix : suffix.data.reverse = c1 :: c2 :: rest) (h : stringsHasSuffix s suffix = true) :
    ∃ tl, s.data.reverse = c1 :: c2 :: tl := by
  unfold stringsHasSuffix List.isSuffixOf at h
  rw [hsuffix] at h
  cases hs : s.data.reverse with
  | nil => rw [hs] at h; simp [List.isPrefixOf] at h
  | cons a tl =>
    cases tl with
    | nil => rw [hs] at h; simp [List.isPrefixOf] at h
    | cons b tl =>
      rw [hs] at h
      simp only [List.isPrefixOf, Bool.and_eq_true, beq_iff_eq] at h
      obtain ⟨h1, h2, _⟩ := h
      subst h1 h2
      exact ⟨tl, rfl⟩

theorem stringsHasSuffix_json_hcl_not_yaml (s : String)
    (h : stringsHasSuffix s ".json" = true ∨ stringsHasSuffix s ".hcl" = true) :
    (stringsHasSuffix s ".yml" || stringsHasSuffix s ".yaml") = false := by
  have hyml : stringsHasSuffix s ".yml" = true → ∃ tl, s.data.reverse = 'l' :: 'm' :: tl :=
    stringsHasSuffix_last_two s ".yml" 'l' 'm' ['y', '.'] rfl
  have hyaml : stringsHasSuffix s ".yaml" = true → ∃ tl, s.data.reverse = 'l' :: 'm' :: tl :=
    stringsHasSuffix_last_two s ".yaml" 'l' 'm' ['a', 'y', '.'] rfl
  have hjson : stringsHasSuffix s ".json" = true → ∃ tl, s.data.reverse = 'n' :: 'o' :: tl :=
    stringsHasSuffix_last_two s ".json" 'n' 'o' ['s', 'j', '.'] rfl
  have hhcl : stringsHasSuffix s ".hcl" = true → ∃ tl, s.data.reverse = 'l' :: 'c' :: tl :=
    stringsHasSuffix_last_two s ".hcl" 'l' 'c' ['h', '.'] rfl
  have hother : ∃ tl, s.data.reverse = 'n' :: 'o' :: tl ∨ s.data.reverse = 'l' :: 'c' :: tl := by
    rcases h with h | h
    · obtain ⟨tl, e⟩ := hjson h; exact ⟨tl, Or.inl e⟩
    · obtain ⟨tl, e⟩ := hhcl h; exact ⟨tl, Or.inr e⟩
  obtain ⟨tl, hcase⟩ := hother
  have hno : ∀ tl', s.data.reverse ≠ 'l' :: 'm' :: tl' := by
    intro tl' e
    rcases hcase with e' | e' <;> rw [e] at e' <;> simp at e'
  rw [Bool.or_eq_false_iff]
  constructor
  · cases hy : stringsHasSuffix s ".yml" with
    | false => rfl
    | true => obtain ⟨tl', e⟩ := hyml hy; exact absurd e (hno tl')
  · cases hy : stringsHasSuffix s ".yaml" with
    | false => rfl
    | true => obtain ⟨tl', e⟩ := hyaml hy; exact absurd e (hno tl')

theorem Regex.matches_starCls_iff (p : Char → Bool) (s : List Char) :
    Regex.Matches (.starCls p) s ↔ ∀ c ∈ s, p c = true := by
  constructor
  · intro h
    generalize hr : Regex.starCls p = r at h
    induction h with
    | eps => cases hr
    | cls => cases hr
    | starNil => intro c hc; cases hc
    | starCons q c s hq _ ih =>
      cases hr
      intro d hd
      rcases List.mem_cons.mp hd with e | e
      · subst e; exact hq
      · exact ih rfl d e
    | seq => cases hr
    | altLeft => cases hr
    | altRight => cases hr
  · intro h
    induction s with
    | nil => exact .starNil p
    | cons c s ih =>
      exact .starCons p c s (h c (List.mem_cons_self c s))
        (ih (fun d hd => h d (List.mem_cons_of_mem c hd)))

theorem Regex.starK_iff (p : Char → Bool) (k : List Char → Bool) (s : List Char) :
    Regex.starK p k s = true ↔
      ∃ s1 s2, s = s1 ++ s2 ∧ Regex.Matches (.starCls p) s1 ∧ k s2 = true := by
  induction s with
  | nil =>
    simp only [Regex.starK]
    constructor
    · intro h; exact ⟨[], [], rfl, .starNil p, h⟩
    · rintro ⟨s1, s2, hs, _, hk⟩
      have h2 : s2 = [] := (List.append_eq_nil.mp hs.symm).2
      subst h2; exact hk
  | cons c s ih =>
    simp only [Regex.starK, Bool.or_eq_true, Bool.and_eq_true, ih]
    constructor
    · rintro (h | ⟨hp, s1, s2, hs, hm, hk⟩)
      · exact ⟨[], c :: s, rfl, .starNil p, h⟩
      · exact ⟨c :: s1, s2, by rw [hs]; rfl, .starCons p c s1 hp hm, hk⟩
    · rintro ⟨s1, s2, hs, hm, hk⟩
      cases s1 with
      | nil =>
        left
        simp only [List.nil_append] at hs
        rw [hs]; exact hk
      | cons d s1 =>
        right
        simp only [List.cons_append, List.cons.injEq] at hs
        obtain ⟨hd, hs⟩ := hs
        subst hd
        have hall := (Regex.matches_starCls_iff p (c :: s1)).mp hm
        exact ⟨hall c (List.mem_cons_self c s1), s1, s2, hs,
          (Regex.matches_starCls_iff p s1).mpr (fun e he => hall e (List.mem_cons_of_mem c he)),
          hk⟩

theorem Regex.matchK_iff (r : Regex) :
    ∀ (s : List Char) (k : List Char → Bool),
      r.matchK s k = true ↔ ∃ s1 s2, s = s1 ++ s2 ∧ r.Matches s1 ∧ k s2 = true := by
  induction r with
  | eps =>
    intro s k
    simp only [Regex.matchK]
    constructor
    · intro h; exact ⟨[], s, rfl, .eps, h⟩
    · rintro ⟨s1, s2, hs, hm, hk⟩
      cases hm
      simpa [hs] using hk
  | cls p =>
    intro s k
    cases s with
    | nil =>
      simp only [Regex.matchK]
      constructor
      · intro h; cases h
      · rintro ⟨s1, s2, hs, hm, _⟩
        cases hm
        cases hs
    | cons c s =>
      simp only [Regex.matchK, Bool.and_eq_true]
      constructor
      · rintro ⟨hp, hk⟩
        exact ⟨[c], s, rfl, .cls p c hp, hk⟩
      · rintro ⟨s1, s2, hs, hm, hk⟩
        cases hm with
        | cls _ d hp =>
          simp only [List.singleton_append, List.cons.injEq] at hs
          obtain ⟨hd, hs⟩ := hs
          subst hd hs
          exact ⟨hp, hk⟩
  | starCls p =>
    intro s k
    simp only [Regex.matchK]
    exact Regex.starK_iff p k s
  | seq a b iha ihb =>
    intro s k
    simp only [Regex.matchK]
    rw [iha]
    constructor
    · rintro ⟨s1, s2, hs, hma, hk⟩
      obtain ⟨t1, t2, ht, hmb, hk⟩ := (ihb s2 k).mp hk
      exact ⟨s1 ++ t1, t2, by rw [hs, ht, List.append_assoc], .seq a b s1 t1 hma hmb, hk⟩
    · rintro ⟨s1, s2, hs, hm, hk⟩
      cases hm with
      | seq _ _ u v hu hv =>
        exact ⟨u, v ++ s2, by rw [hs, List.append_assoc], hu, (ihb _ k).mpr ⟨v, s2, rfl, hv, hk⟩⟩
  | alt a b iha ihb =>
    intro s k
    simp only [Regex.matchK, Bool.or_eq_true, iha, ihb]
    constructor
    · rintro (⟨s1, s2, hs, hm, hk⟩ | ⟨s1, s2, hs, hm, hk⟩)
      · exact ⟨s1, s2, hs, .altLeft a b s1 hm, hk⟩
      · exact ⟨s1, s2, hs, .altRight a b s1 hm, hk⟩
    · rintro ⟨s1, s2, hs, hm, hk⟩
      cases hm with
      | altLeft _ _ _ h => exact Or.inl ⟨s1, s2, hs, h, hk⟩
      | altRight _ _ _ h => exact Or.inr ⟨s1, s2, hs, h, hk⟩

theorem Regex.fullMatch_iff (r : Regex) (s : String) :
    r.fullMatch s = true ↔ r.Matches s.data := by
  unfold Regex.fullMatch
  rw [Regex.matchK_iff]
  constructor
  · rintro ⟨s1, s2, hs, hm, hk⟩
    have h2 : s2 = [] := List.isEmpty_iff.mp hk
    subst h2
    rw [hs, List.append_nil]
    exact hm
  · intro hm
    exact ⟨s.data, [], (List.append_nil _).symm, hm, rfl⟩

theorem Regex.matches_lit (l : List Char) : (Regex.lit l).Matches l := by
  induction l with
  | nil => exact .eps
  | cons c cs ih =>
    exact .seq _ _ [c] cs (.cls _ c (by simp)) ih

theorem splitComma_of_no_comma (l : List Char) (h : ',' ∉ l) : splitComma l = [l] := by
  induction l with
  | nil => rfl
  | cons c cs ih =>
    simp only [List.mem_cons, not_or] at h
    simp only [splitComma, Ne.symm h.1, if_false, ih h.2]

theorem splitComma_append_comma (l rest : List Char) (h : ',' ∉ l) :
    splitComma (l ++ ',' :: rest) = l :: splitComma rest := by
  induction l with
  | nil => simp [splitComma]
  | cons c cs ih =>
    simp only [List.mem_cons, not_or] at h
    have hstep : splitComma (c :: (cs ++ ',' :: rest)) =
        match splitComma (cs ++ ',' :: rest) with
        | [] => [[c]]
        | piece :: pieces => (c :: piece) :: pieces := by
      simp only [splitComma, Ne.symm h.1, if_false]
    rw [List.cons_append, hstep, ih h.2]

theorem Regex.matches_keyed (key value : List Char) (h : ',' ∉ value) :
    (Regex.seq (Regex.lit key) (.starCls notComma)).Matches (key ++ value) := by
  refine .seq _ _ key value (Regex.matches_lit key) ?_
  rw [Regex.matches_starCls_iff]
  intro c hc
  have hne : c ≠ ',' := fun e => h (e ▸ hc)
  simp [notComma, hne]

theorem Regex.matches_keyed_after_comma (key value : List Char) (h : ',' ∉ value) :
    (Regex.seq (Regex.opt (Regex.lit ",".data))
      (.seq (Regex.lit key) (.starCls notComma))).Matches (',' :: (key ++ value)) :=
  .seq _ _ [','] (key ++ value) (.altLeft _ _ _ (Regex.matches_lit ",".data))
    (Regex.matches_keyed key value h)

theorem Regex.matches_keyed_first (key value : List Char) (h : ',' ∉ value) :
    (Regex.seq (Regex.opt (Regex.lit ",".data))
      (.seq (Regex.lit key) (.starCls notComma))).Matches (key ++ value) :=
  .seq _ _ [] (key ++ value) (.altRight _ _ _ .eps) (Regex.matches_keyed key value h)

theorem secretShape_of_parts (a b c : List Char)
    (ha : a = [] ∨ (Regex.seq (Regex.lit "id=".data) (.starCls notComma)).Matches a)
    (hb : b = [] ∨ (Regex.seq (Regex.opt (Regex.lit ",".data))
      (.seq (Regex.lit "src=".data) (.starCls notComma))).Matches b)
    (hc : c = [] ∨ (Regex.seq (Regex.opt (Regex.lit ",".data))
      (.seq (Regex.lit "env=".data) (.starCls notComma))).Matches c) :
    secretShape.Matches (a ++ (b ++ c)) := by
  refine .seq _ _ a (b ++ c) ?_ (.seq _ _ b c ?_ ?_)
  · rcases ha with e | h
    · subst e; exact .altRight _ _ _ .eps
    · exact .altLeft _ _ _ h
  · rcases hb with e | h
    · subst e; exact .altRight _ _ _ .eps
    · exact .altLeft _ _ _ h
  · rcases hc with e | h
    · subst e; exact .altRight _ _ _ .eps
    · exact .altLeft _ _ _ h

/-- The external secret of the specification's fourth scenario,
`token: { external: true }`: its definition reaches `composeToBuildkitSecret`
without a name, and the message of line 376 ends after `secret `, naming no
secret at all. -/
theorem composeToBuildkitSecret_external_unnamed :
    composeToBuildkitSecret tokenRef unnamedExternalToken =
      .error "unsupported external secret " := by
  decide

/-! ## Theorems -/

/-- C1: for a project secret that is not marked External, `composeToBuildkitSecret`
succeeds with the comma-joined list of `id=<Source>`, `src=<File>` and
`env=<Environment>`, in this order, each present only when its value is
non-empty; with all three empty the result is the empty string; and for the
zero-valued definition that `ParseCompose` passes when `Source` names no
project secret the result is `id=<Source>`, or empty for an empty `Source`. -/
theorem composeToBuildkitSecret_renders (inp : ServiceSecretConfig) (psecret : SecretConfig)
    (hext : psecret.External = false) :
    composeToBuildkitSecret inp psecret =
        .ok (stringsJoin
          (([("id=", inp.Source), ("src=", psecret.File), ("env=", psecret.Environment)].filter
            (fun p => p.2 ≠ "")).map (fun p => p.1 ++ p.2)) ",")
      ∧ (inp.Source = "" → psecret.File = "" → psecret.Environment = "" →
          composeToBuildkitSecret inp psecret = .ok "")
      ∧ (∀ cfgSecrets : GoMap SecretConfig, mapGet cfgSecrets inp.Source = none →
          secretsLoop cfgSecrets [inp] [] =
            .ok [if inp.Source = "" then "" else "id=" ++ inp.Source]) := by
  refine ⟨?_, ?_, ?_⟩
  · unfold composeToBuildkitSecret
    by_cases h1 : inp.Source = "" <;> by_cases h2 : psecret.File = "" <;>
      by_cases h3 : psecret.Environment = "" <;> simp [hext, h1, h2, h3]
  · intro h1 h2 h3
    simp [composeToBuildkitSecret, hext, h1, h2, h3, stringsJoin, String.intercalate]
  · intro cfgSecrets hnone
    simp only [secretsLoop, hnone]
    by_cases h1 : inp.Source = "" <;>
      simp [secretsLoop, composeToBuildkitSecret, SecretConfig.zero, h1, stringsJoin,
        String.intercalate, String.intercalate.go]

/-- Witness of C1: the reference `token` against a file-and-environment secret. -/
theorem composeToBuildkitSecret_renders_witness :
    composeToBuildkitSecret tokenRef
        { Name := "token", File := "/run/token", Environment := "TOKEN", External := false } =
      .ok "id=token,src=/run/token,env=TOKEN" := by
  have h := (composeToBuildkitSecret_renders tokenRef
    { Name := "token", File := "/run/token", Environment := "TOKEN", External := false } rfl).1
  rw [h]
  decide

/-- C2, as the code has it: for a project secret marked External,
`composeToBuildkitSecret` fails, and `ParseCompose` fails on every project in
which a service with a build block references such a secret; when the
project-level definition carries a name, the message is
`unsupported external secret <name>` with `<name>` that name of the
definition.  (What the message says for a definition without a name is left
open.) -/
theorem composeToBuildkitSecret_external {ExtVal : Type} (x : Externals ExtVal)
    (cfgs : List ConfigFile) (envs : Option (GoMap String)) (cfg : Project ExtVal)
    (s : ServiceConfig ExtVal) (b : BuildConfig ExtVal) (inp : ServiceSecretConfig)
    (psecret : SecretConfig)
    (hload : x.loadWithContext cfgs (mapEntries envs) (composeProjectName (mapEntries envs)) =
      .ok cfg)
    (hs : s ∈ cfg.Services) (hb : s.Build = some b) (hinp : inp ∈ b.Secrets)
    (hget : mapGet cfg.Secrets inp.Source = some psecret) (hext : psecret.External = true) :
    (∃ err, composeToBuildkitSecret inp psecret = .error err)
      ∧ (psecret.Name ≠ "" →
          composeToBuildkitSecret inp psecret =
            .error ("unsupported external secret " ++ psecret.Name))
      ∧ ∃ err, ParseCompose x cfgs envs = .error err := by
  have hmsg : composeToBuildkitSecret inp psecret =
      .error ("unsupported external secret " ++ psecret.Name) := by
    simp [composeToBuildkitSecret, hext]
  refine ⟨⟨_, hmsg⟩, fun _ => hmsg, ?_⟩
  have h1 := secretsLoop_external cfg.Secrets inp psecret hget hext b.Secrets [] hinp
  have h2 := translateService_secret_error x cfg s b h1
  have hne : cfg.Services.length > 0 := List.length_pos_of_mem hs
  obtain ⟨e, he⟩ := servicesLoop_error x cfg s b hb h2 cfg.Services
    { Name := "default", Targets := [] } { Config.zero with Groups := [], Targets := [] } hs
  refine ⟨e, ?_⟩
  simp only [ParseCompose, hload, translateProject, hne, if_true, he]

/-- Witness of C2: the external secret `token` named `prod_token`. -/
theorem composeToBuildkitSecret_external_witness :
    externalToken.Name ≠ ""
      ∧ composeToBuildkitSecret tokenRef externalToken =
        .error ("unsupported external secret " ++ externalToken.Name)
      ∧ ∃ err, ParseCompose (sampleExternals externalSecretProject) [] none = .error err := by
  have hname : externalToken.Name ≠ "" := by decide
  have h := composeToBuildkitSecret_external (sampleExternals externalSecretProject) [] none
    externalSecretProject
    { Name := "s", Build := some { sampleBuild with Secrets := [tokenRef] }, Image := "",
      Environment := [] }
    { sampleBuild with Secrets := [tokenRef] } tokenRef externalToken rfl
    (List.Mem.head _) rfl (List.Mem.head _) (by decide) rfl
  exact ⟨hname, h.2.1 hname, h.2.2⟩

/-- Counterexample to C2 as stated: the service references the secret as
`token`, its definition is external with `name: prod_token`, and the error
names `prod_token`, not `token`. -/
theorem composeToBuildkitSecret_external_names_definition :
    composeToBuildkitSecret tokenRef externalToken =
        .error "unsupported external secret prod_token"
      ∧ ParseCompose (sampleExternals externalSecretProject) [] none =
        .error "unsupported external secret prod_token"
      ∧ composeToBuildkitSecret tokenRef externalToken ≠
        .error ("unsupported external secret " ++ tokenRef.Source) := by
  refine ⟨by decide, by decide, by decide⟩

/-- C3, as the code has it: when `ParseCompose` succeeds, a service that has a
build block with an empty tag list and a non-empty image, and whose `x-bake`
extension (if it has one) supplies no tags, yields a target whose `Tags` is
the one-element list of the image. -/
theorem parseCompose_tag_fallback {ExtVal : Type} (x : Externals ExtVal)
    (cfgs : List ConfigFile) (envs : Option (GoMap String)) (cfg : Project ExtVal) (c : Config)
    (hload : x.loadWithContext cfgs (mapEntries envs) (composeProjectName (mapEntries envs)) =
      .ok cfg)
    (hok : ParseCompose x cfgs envs = .ok c) :
    List.Forall₂ (fun sb t =>
        sb.2.Tags = [] → sb.1.Image ≠ "" →
        (∀ xb, overlay x sb.2.Extensions = some xb → xb.Tags = []) →
        t.Tags = [sb.1.Image])
      (buildServices cfg) c.Targets := by
  refine (parseCompose_targets x cfgs envs cfg c hload hok).imp ?_
  rintro ⟨s, b⟩ t ⟨ul, sec, ht⟩ htags himg hxb
  subst ht
  have h0 : (withOverlay (initialTarget x cfg s b (x.sanitizeTargetName s.Name) ul sec)
      (overlay x b.Extensions)).Tags = [] := by
    cases ho : overlay x b.Extensions with
    | none => exact htags
    | some xb =>
      simp only [withOverlay, mergeXBake_Tags, hxb xb ho]
      simpa [initialTarget] using htags
  rw [finishTarget_Tags, h0]
  simp [himg]

/-- Witness of C3: the service `api` with image `myorg/api:1.2`, built from
`./api` without tags and without `x-bake`. -/
theorem parseCompose_tag_fallback_witness :
    ParseCompose (sampleExternals fallbackProject) [] none =
        .ok { Groups := [{ Name := "default", Targets := ["api"] }],
              Targets := [{ plainTarget "api" "./api" with Tags := ["myorg/api:1.2"] }] }
      ∧ ({ plainTarget "api" "./api" with Tags := ["myorg/api:1.2"] } : Target).Tags =
        ["myorg/api:1.2"] :=
  ⟨by decide,
    (List.forall₂_cons.mp
      (parseCompose_tag_fallback (sampleExternals fallbackProject) [] none fallbackProject
        { Groups := [{ Name := "default", Targets := ["api"] }],
          Targets := [{ plainTarget "api" "./api" with Tags := ["myorg/api:1.2"] }] }
        rfl (by decide))).1 rfl (by decide) (fun _ hxb => Option.noConfusion hxb)⟩

/-- Counterexample to C3 as stated: the service `api` has image
`myorg/api:1.2` and no build tags, its `x-bake` has `tags: [myorg/api:dev]`,
and the target's `Tags` is `[myorg/api:dev]`, not `[myorg/api:1.2]`. -/
theorem parseCompose_tag_fallback_overlay_tags :
    (ParseCompose (sampleExternals overlayTagsProject) [] none).map
        (fun c => c.Targets.map Target.Tags) = .ok [["myorg/api:dev"]]
      ∧ (ParseCompose (sampleExternals overlayTagsProject) [] none).map
        (fun c => c.Targets.map Target.Tags) ≠ .ok [["myorg/api:1.2"]] := by
  refine ⟨by decide, by decide⟩

/-- C4, as the code has it: for each list field Tags, CacheFrom, CacheTo,
Secrets, Platforms, Outputs and NoCacheFilter, when the decoded `x-bake`
supplies a non-empty list for the field, the field after `composeExtTarget` is
`existing ++ overlay` with every element that already occurred earlier
removed: a subsequence of `existing ++ overlay`, without duplicates, with the
same elements; when the decoded `x-bake` supplies no entry for the field, the
field is left as it was. -/
theorem composeExtTarget_list_fields {ExtVal : Type} (x : Externals ExtVal) (t : Target)
    (exts : GoMap (Option ExtVal)) (ext : ExtVal) (xb : xbake) (f : ListField)
    (hget : mapGet exts "x-bake" = some (some ext)) (hdec : x.yamlDecode ext = .ok xb) :
    ∃ t', composeExtTarget x t exts = .ok t' ∧
      (f.ofXBake xb = [] → f.ofTarget t' = f.ofTarget t) ∧
      (f.ofXBake xb ≠ [] →
        f.ofTarget t' = firstOccurrences (f.ofTarget t ++ f.ofXBake xb) ∧
        (f.ofTarget t').Sublist (f.ofTarget t ++ f.ofXBake xb) ∧
        (f.ofTarget t').Nodup ∧
        ∀ a, a ∈ f.ofTarget t' ↔ a ∈ f.ofTarget t ++ f.ofXBake xb) := by
  refine ⟨mergeXBake t xb, by simp only [composeExtTarget, hget, hdec], ?_, ?_⟩
  · intro h
    rw [mergeXBake_listField, h]
    simp
  · intro h
    have hpos : (f.ofXBake xb).length > 0 := List.length_pos.mpr h
    rw [mergeXBake_listField]
    simp only [hpos, if_true]
    exact ⟨dedupSlice_eq_firstOccurrences _, dedupSlice_sublist _, dedupSlice_nodup _,
      mem_dedupSlice _⟩

/-- Witness of C4: the tags `[a, b]` merged with the `x-bake` tags `[b, c]`. -/
theorem composeExtTarget_list_fields_witness :
    ∃ t', composeExtTarget (sampleExternals emptyProject)
        { plainTarget "app" "." with Tags := ["a", "b"] }
        [("x-bake", some { sampleXBake with Tags := ["b", "c"] })] = .ok t' ∧
      t'.Tags = firstOccurrences (["a", "b"] ++ ["b", "c"]) ∧
      t'.Tags.Sublist (["a", "b"] ++ ["b", "c"]) ∧
      t'.Tags.Nodup ∧
      ∀ a, a ∈ t'.Tags ↔ a ∈ ["a", "b"] ++ ["b", "c"] := by
  obtain ⟨t', hrun, _, hmerge⟩ := composeExtTarget_list_fields (sampleExternals emptyProject)
    { plainTarget "app" "." with Tags := ["a", "b"] }
    [("x-bake", some { sampleXBake with Tags := ["b", "c"] })]
    { sampleXBake with Tags := ["b", "c"] } { sampleXBake with Tags := ["b", "c"] }
    ListField.Tags rfl rfl
  exact ⟨t', hrun, hmerge (by decide)⟩

/-- Counterexample to C4 as stated: the target's tags are `[a, a]` and the
decoded `x-bake` has platforms and the empty list of tags; after
`composeExtTarget` the tags are still `[a, a]`, which has a duplicate and is
not `[a, a] ++ []` with the repeated element removed. -/
theorem composeExtTarget_keeps_repeated_tags :
    (composeExtTarget (sampleExternals emptyProject) repeatedTagsTarget platformsOnlyExts).map
        Target.Tags = .ok ["a", "a"]
      ∧ ¬ (["a", "a"] : List String).Nodup
      ∧ (["a", "a"] : List String) ≠ firstOccurrences (repeatedTagsTarget.Tags ++ []) := by
  refine ⟨by decide, by decide, by decide⟩

/-- C5: when `ParseCompose` succeeds, for every service with a build block the
SSH list of the target as first built is the sorted list of the SSH keys, each
rendered as `id` when its path is empty and as `id=path` otherwise; the SSH
list of the final target is sorted ascending; it is the first list when the
`x-bake` supplies no SSH entry, and when it supplies some it is the sorted
deduplication of the first list followed by these entries and has no
duplicates. -/
theorem parseCompose_ssh_sorted {ExtVal : Type} (x : Externals ExtVal)
    (cfgs : List ConfigFile) (envs : Option (GoMap String)) (cfg : Project ExtVal) (c : Config)
    (hload : x.loadWithContext cfgs (mapEntries envs) (composeProjectName (mapEntries envs)) =
      .ok cfg)
    (hok : ParseCompose x cfgs envs = .ok c) :
    List.Forall₂ (fun sb t =>
        (∀ n ulimits secrets,
          (initialTarget x cfg sb.1 sb.2 n ulimits secrets).SSH.Sorted (· ≤ ·) ∧
          (initialTarget x cfg sb.1 sb.2 n ulimits secrets).SSH.Perm
            (sb.2.SSH.map (fun key =>
              if key.Path = "" then key.ID else key.ID ++ "=" ++ key.Path))) ∧
        t.SSH.Sorted (· ≤ ·) ∧
        ((∀ xb, overlay x sb.2.Extensions = some xb → xb.SSH = []) →
          t.SSH = sortStrings (sb.2.SSH.map composeToBuildkitSSH)) ∧
        (∀ xb, overlay x sb.2.Extensions = some xb → xb.SSH ≠ [] →
          t.SSH.Nodup ∧
          t.SSH = sortStrings
            (dedupSlice (sortStrings (sb.2.SSH.map composeToBuildkitSSH) ++ xb.SSH))))
      (buildServices cfg) c.Targets := by
  refine (parseCompose_targets x cfgs envs cfg c hload hok).imp ?_
  rintro ⟨s, b⟩ t ⟨ul, sec, ht⟩
  have hinit : ∀ n ulimits secrets, (initialTarget x cfg s b n ulimits secrets).SSH =
      sortStrings (b.SSH.map composeToBuildkitSSH) := fun _ _ _ => rfl
  have hrender : b.SSH.map composeToBuildkitSSH =
      b.SSH.map (fun key => if key.Path = "" then key.ID else key.ID ++ "=" ++ key.Path) :=
    List.map_congr_left (fun key _ => composeToBuildkitSSH_eq key)
  subst ht
  refine ⟨?_, ?_, ?_, ?_⟩
  · intro n ulimits secrets
    rw [hinit]
    exact ⟨sortStrings_sorted _, hrender ▸ sortStrings_perm _⟩
  · rw [finishTarget_SSH]
    exact withOverlay_SSH_sorted _ _ (by rw [hinit]; exact sortStrings_sorted _)
  · intro hxb
    rw [finishTarget_SSH]
    cases ho : overlay x b.Extensions with
    | none => rfl
    | some xb => simp [withOverlay, mergeXBake_SSH, hxb xb ho, hinit]
  · intro xb ho hne
    have hpos : xb.SSH.length > 0 := List.length_pos.mpr hne
    rw [finishTarget_SSH, ho]
    simp only [withOverlay, mergeXBake_SSH, hpos, if_true, hinit]
    exact ⟨(sortStrings_perm _).nodup_iff.mpr (dedupSlice_nodup _), trivial⟩

/-- Witness of C5: the service `app` with the SSH keys `default` and
`agent=/run/agent.sock` and the `x-bake` entries `default` and `backup`. -/
theorem parseCompose_ssh_sorted_witness :
    ParseCompose (sampleExternals sshProject) [] none =
        .ok { Groups := [{ Name := "default", Targets := ["app"] }],
              Targets := [{ plainTarget "app" "." with
                SSH := ["agent=/run/agent.sock", "backup", "default"] }] }
      ∧ (["agent=/run/agent.sock", "backup", "default"] : List String).Sorted (· ≤ ·)
      ∧ (["agent=/run/agent.sock", "backup", "default"] : List String).Nodup := by
  have h := (List.forall₂_cons.mp
    (parseCompose_ssh_sorted (sampleExternals sshProject) [] none sshProject
      { Groups := [{ Name := "default", Targets := ["app"] }],
        Targets := [{ plainTarget "app" "." with
          SSH := ["agent=/run/agent.sock", "backup", "default"] }] }
      rfl (by decide))).1
  exact ⟨by decide, h.2.1,
    (h.2.2.2 { sampleXBake with SSH := ["default", "backup"] } rfl (by decide)).1⟩

/-- C6, as the code has it: when `ParseCompose` succeeds on a project that has
at least one service, the returned `Config` has exactly one group, named
`default`, whose `Targets` list is the list of the `Name` fields of
`Config.Targets` in the same order; on a project without services the
returned `Config` has no group and no target. -/
theorem parseCompose_default_group {ExtVal : Type} (x : Externals ExtVal)
    (cfgs : List ConfigFile) (envs : Option (GoMap String)) (cfg : Project ExtVal) (c : Config)
    (hload : x.loadWithContext cfgs (mapEntries envs) (composeProjectName (mapEntries envs)) =
      .ok cfg)
    (hok : ParseCompose x cfgs envs = .ok c) :
    (cfg.Services ≠ [] →
        c.Groups = [{ Name := "default", Targets := c.Targets.map Target.Name }]) ∧
      (cfg.Services = [] → c.Groups = [] ∧ c.Targets = []) := by
  rcases parseCompose_ok x cfgs envs cfg c hload hok with ⟨hnil, hc⟩ | ⟨hne, nts, hall, hc⟩
  · subst hc
    exact ⟨fun h => absurd hnil h, fun _ => ⟨rfl, rfl⟩⟩
  · subst hc
    refine ⟨fun _ => ?_, fun h => absurd h hne⟩
    simp [translateService_names x cfg _ _ hall]

/-- Witness of C6: the project of the services `db` (not built) and
`web.app`. -/
theorem parseCompose_default_group_witness :
    ParseCompose (sampleExternals twoServicesProject) [] none =
        .ok { Groups := [{ Name := "default", Targets := ["web_app"] }],
              Targets := [plainTarget "web_app" "."] }
      ∧ [({ Name := "default", Targets := ["web_app"] } : Group)] =
        [{ Name := "default", Targets := [plainTarget "web_app" "."].map Target.Name }] :=
  ⟨by decide,
    (parseCompose_default_group (sampleExternals twoServicesProject) [] none twoServicesProject
      { Groups := [{ Name := "default", Targets := ["web_app"] }],
        Targets := [plainTarget "web_app" "."] }
      rfl (by decide)).1 (List.cons_ne_nil _ _)⟩

/-- Counterexample to C6 as stated: on a project without services
`ParseCompose` succeeds and the returned `Config` has no group. -/
theorem parseCompose_no_services_no_group :
    ParseCompose (sampleExternals emptyProject) [] none = .ok { Groups := [], Targets := [] }
      ∧ (ParseCompose (sampleExternals emptyProject) [] none).map
        (fun c => c.Groups.length) ≠ .ok 1 := by
  refine ⟨by decide, by decide⟩

/-- C7: when the `.env` file does not exist, `loadDotEnv` returns the current
environment unchanged; when it exists and parses, the returned mapping gives
each key the current-environment value if the key is set there (even to the
empty string), otherwise the `.env` value if the key is present there, and
leaves every other key unset. -/
theorem loadDotEnv_precedence (h : Host) (curenv : Option (GoMap String))
    (workingDir ef : String) (habs : h.absJoin workingDir ".env" = .ok ef) :
    (h.stat ef = .notExist → loadDotEnv h curenv workingDir = .ok (mapEntries curenv)) ∧
      (∀ dt envs, h.stat ef = .found → h.readFile ef = .ok dt →
        h.unmarshalDotEnv dt = .ok envs →
        ∃ m, loadDotEnv h curenv workingDir = .ok m ∧
          ∀ k, mapGet m k =
            match mapGetNil curenv k with
            | some v => some v
            | none => mapGet envs k) := by
  constructor
  · intro hstat
    simp only [loadDotEnv, habs, hstat]
  · intro dt envs hstat hread hparse
    have hres : loadDotEnv h curenv workingDir =
        .ok (envs.foldl (fun curenv kv =>
          match mapGet curenv kv.1 with
          | some _ => curenv
          | none => mapSet curenv kv.1 kv.2) (mapEntries curenv)) := by
      simp only [loadDotEnv, habs, hstat, hread, hparse]
    refine ⟨_, hres, ?_⟩
    intro k
    rw [dotEnvLoop_get]
    cases curenv <;> rfl

/-- Witness of C7: the current environment `FOO=fromproc`, `EMPTY=` in a
directory without `.env`, and in `/work` whose `.env` has `FOO=fromfile`,
`BAR=fromfile`. -/
theorem loadDotEnv_precedence_witness :
    loadDotEnv sampleHost (some [("FOO", "fromproc"), ("EMPTY", "")]) "/tmp" =
        .ok [("FOO", "fromproc"), ("EMPTY", "")]
      ∧ ∃ m, loadDotEnv sampleHost (some [("FOO", "fromproc"), ("EMPTY", "")]) "/work" = .ok m ∧
          ∀ k, mapGet m k =
            match mapGetNil (some [("FOO", "fromproc"), ("EMPTY", "")]) k with
            | some v => some v
            | none => mapGet [("FOO", "fromfile"), ("BAR", "fromfile")] k := by
  have habs1 : sampleHost.absJoin "/tmp" ".env" = .ok "/tmp/.env" := by decide
  have habs2 : sampleHost.absJoin "/work" ".env" = .ok "/work/.env" := by decide
  have hstat1 : sampleHost.stat "/tmp/.env" = .notExist := by decide
  have hstat2 : sampleHost.stat "/work/.env" = .found := by decide
  exact ⟨(loadDotEnv_precedence sampleHost (some [("FOO", "fromproc"), ("EMPTY", "")]) "/tmp"
      "/tmp/.env" habs1).1 hstat1,
    (loadDotEnv_precedence sampleHost (some [("FOO", "fromproc"), ("EMPTY", "")]) "/work"
      "/work/.env" habs2).2 "FOO=fromfile\nBAR=fromfile"
      [("FOO", "fromfile"), ("BAR", "fromfile")] hstat2 (by decide) (by decide)⟩

/-- C8, as the code has it: when the environment resolves (`composeEnv`
succeeds), `validateComposeFile` decides by the suffix of the lower-cased
name: for `.yml` or `.yaml` it returns `(true, e)` with `e` the validation
result; for `.json` or `.hcl` it returns `(false, nil)`; for any other name it
returns `(true, nil)` when validation succeeds and `(false, e)` when it fails
with `e`.  When the environment does not resolve, it returns `(true, e)` with
`e` the environment error, whatever the name. -/
theorem validateComposeFile_by_suffix (h : Host) (dt fn : String) :
    (∀ envs, composeEnv h = .ok envs →
        ((stringsHasSuffix (stringsToLower fn) ".yml" = true ∨
            stringsHasSuffix (stringsToLower fn) ".yaml" = true) →
          validateComposeFile h dt fn = (true, validateCompose h dt envs)) ∧
        ((stringsHasSuffix (stringsToLower fn) ".json" = true ∨
            stringsHasSuffix (stringsToLower fn) ".hcl" = true) →
          validateComposeFile h dt fn = (false, none)) ∧
        (stringsHasSuffix (stringsToLower fn) ".yml" = false →
          stringsHasSuffix (stringsToLower fn) ".yaml" = false →
          stringsHasSuffix (stringsToLower fn) ".json" = false →
          stringsHasSuffix (stringsToLower fn) ".hcl" = false →
          (validateCompose h dt envs = none → validateComposeFile h dt fn = (true, none)) ∧
          (∀ e, validateCompose h dt envs = some e →
            validateComposeFile h dt fn = (false, some e)))) ∧
      (∀ e, composeEnv h = .error e → validateComposeFile h dt fn = (true, some e)) := by
  constructor
  · intro envs henv
    refine ⟨?_, ?_, ?_⟩
    · intro hy
      have hy' : (stringsHasSuffix (stringsToLower fn) ".yml" ||
          stringsHasSuffix (stringsToLower fn) ".yaml") = true := by
        rcases hy with hy | hy <;> simp [hy]
      simp only [validateComposeFile, henv, hy', if_true]
    · intro hj
      have hy' := stringsHasSuffix_json_hcl_not_yaml (stringsToLower fn) hj
      have hj' : (stringsHasSuffix (stringsToLower fn) ".json" ||
          stringsHasSuffix (stringsToLower fn) ".hcl") = true := by
        rcases hj with hj | hj <;> simp [hj]
      simp [validateComposeFile, henv, hy', hj']
    · intro h1 h2 h3 h4
      constructor
      · intro hv
        simp [validateComposeFile, henv, h1, h2, h3, h4, hv]
      · intro e hv
        simp [validateComposeFile, henv, h1, h2, h3, h4, hv]
  · intro e henv
    simp only [validateComposeFile, henv]

/-- Witness of C8: on `sampleHost`, whose environment resolves,
`Docker-Compose.YML` is Compose and `docker-bake.hcl` is not. -/
theorem validateComposeFile_by_suffix_witness :
    validateComposeFile sampleHost "services: {}" "Docker-Compose.YML" =
        (true, validateCompose sampleHost "services: {}"
          [("FOO", "fromproc"), ("BAR", "fromfile")])
      ∧ validateComposeFile sampleHost "" "docker-bake.hcl" = (false, none) := by
  have henv : composeEnv sampleHost = .ok [("FOO", "fromproc"), ("BAR", "fromfile")] := by
    decide
  exact ⟨((validateComposeFile_by_suffix sampleHost "services: {}" "Docker-Compose.YML").1
      _ henv).1 (Or.inl (by decide)),
    ((validateComposeFile_by_suffix sampleHost "" "docker-bake.hcl").1
      _ henv).2.1 (Or.inr (by decide))⟩

/-- Counterexample to C8 as stated: with a `.env` file that does not parse,
`validateComposeFile` returns `(true, e)` for `docker-bake.json`, not
`(false, nil)`. -/
theorem validateComposeFile_json_env_error :
    stringsHasSuffix (stringsToLower "docker-bake.json") ".json" = true
      ∧ validateComposeFile brokenDotEnvHost "" "docker-bake.json" =
        (true, some "unexpected character in variable name")
      ∧ validateComposeFile brokenDotEnvHost "" "docker-bake.json" ≠ (false, none) := by
  refine ⟨by decide, by decide, by decide⟩

/-- C9: when `ParseCompose` succeeds, for every service with a build block
(whose `build.args` map has each key once) the target's `Args` are, per key: a
key of `build.args` with an explicit value keeps it; a key whose value is
unresolved (nil) takes the service environment's value for that key if the
service environment has a non-nil value for it, otherwise the project
environment's value if the key is present there, and otherwise is absent from
`Args`; a key outside `build.args` is absent from `Args`. -/
theorem parseCompose_args {ExtVal : Type} (x : Externals ExtVal)
    (cfgs : List ConfigFile) (envs : Option (GoMap String)) (cfg : Project ExtVal) (c : Config)
    (hload : x.loadWithContext cfgs (mapEntries envs) (composeProjectName (mapEntries envs)) =
      .ok cfg)
    (hok : ParseCompose x cfgs envs = .ok c) :
    List.Forall₂ (fun sb t =>
        (mapKeys sb.2.Args).Nodup →
        ∀ k, mapGetNil t.Args k =
          match mapGet sb.2.Args k with
          | none => none
          | some (some v) => some (some v)
          | some none =>
            match mapGet sb.1.Environment k with
            | some (some v) => some (some v)
            | _ =>
              match mapGet cfg.Environment k with
              | some v => some (some v)
              | none => none)
      (buildServices cfg) c.Targets := by
  refine (parseCompose_targets x cfgs envs cfg c hload hok).imp ?_
  rintro ⟨s, b⟩ t ⟨ul, sec, ht⟩ hnodup k
  have hargs : t.Args = flatten (Resolve b.Args (argLookup s.Environment cfg.Environment)) := by
    rw [ht, finishTarget_Args, withOverlay_Args]
    rfl
  rw [hargs, flatten_get _ (by rw [mapKeys_Resolve]; exact hnodup), mapGet_Resolve]
  cases hb : mapGet b.Args k with
  | none => rfl
  | some v =>
    cases v with
    | some v => rfl
    | none =>
      simp only [argLookup]
      cases hs : mapGet s.Environment k with
      | none => cases hc : mapGet cfg.Environment k <;> simp [hc]
      | some w =>
        cases w with
        | some w => rfl
        | none => cases hc : mapGet cfg.Environment k <;> simp [hc]

/-- Witness of C9: the service `app` of `argsProject`, whose target has the
arguments `FOO=svc` (service environment), `BAR=proj` (project environment,
the service environment having it nil) and `QUX=1` (explicit), and neither
`BAZ` (unresolved everywhere) nor `PATH` (not a build argument). -/
theorem parseCompose_args_witness :
    (mapKeys [("FOO", (none : Option String)), ("BAR", none), ("BAZ", none),
        ("QUX", some "1")]).Nodup
      ∧ mapGetNil (some [("FOO", some "svc"), ("BAR", some "proj"), ("QUX", some "1")]) "FOO" =
        some (some "svc")
      ∧ mapGetNil (some [("FOO", some "svc"), ("BAR", some "proj"), ("QUX", some "1")]) "BAR" =
        some (some "proj")
      ∧ mapGetNil (some [("FOO", some "svc"), ("BAR", some "proj"), ("QUX", some "1")]) "BAZ" =
        none
      ∧ mapGetNil (some [("FOO", some "svc"), ("BAR", some "proj"), ("QUX", some "1")]) "QUX" =
        some (some "1")
      ∧ mapGetNil (some [("FOO", some "svc"), ("BAR", some "proj"), ("QUX", some "1")]) "PATH" =
        none := by
  have hnodup : (mapKeys [("FOO", (none : Option String)), ("BAR", none), ("BAZ", none),
      ("QUX", some "1")]).Nodup := by decide
  have h := (List.forall₂_cons.mp
    (parseCompose_args (sampleExternals argsProject) [] none argsProject
      { Groups := [{ Name := "default", Targets := ["app"] }],
        Targets :=
          [{ plainTarget "app" "." with
             Args := some [("FOO", some "svc"), ("BAR", some "proj"), ("QUX", some "1")] }] }
      rfl (by decide))).1 hnodup
  exact ⟨hnodup, h "FOO", h "BAR", h "BAZ", h "QUX", h "PATH"⟩

/-- C10: when `ParseCompose` succeeds, `Config.Targets` lines up one to one, in
order, with the services that have a build block (so a service lacking one has
no target), and each target's `Name` is the sanitized name of its service. -/
theorem parseCompose_targets_of_build_services {ExtVal : Type} (x : Externals ExtVal)
    (cfgs : List ConfigFile) (envs : Option (GoMap String)) (cfg : Project ExtVal) (c : Config)
    (hload : x.loadWithContext cfgs (mapEntries envs) (composeProjectName (mapEntries envs)) =
      .ok cfg)
    (hok : ParseCompose x cfgs envs = .ok c) :
    List.Forall₂ (fun s t => t.Name = x.sanitizeTargetName s.Name)
        (cfg.Services.filter (fun s => s.Build.isSome)) c.Targets
      ∧ c.Targets.length = (cfg.Services.filter (fun s => s.Build.isSome)).length := by
  have hall : List.Forall₂ (fun s t => t.Name = x.sanitizeTargetName s.Name)
      (cfg.Services.filter (fun s => s.Build.isSome)) c.Targets := by
    rw [← buildServices_map_fst, List.forall₂_map_left_iff]
    refine (parseCompose_targets x cfgs envs cfg c hload hok).imp ?_
    rintro ⟨s, b⟩ t ⟨ul, sec, ht⟩
    rw [ht, finishTarget_Name, withOverlay_Name]
    rfl
  exact ⟨hall, hall.length_eq.symm⟩

/-- Witness of C10: the project of the services `db` (not built) and
`web.app`, whose only target is `web_app`. -/
theorem parseCompose_targets_of_build_services_witness :
    List.Forall₂
        (fun s t => t.Name = (sampleExternals twoServicesProject).sanitizeTargetName s.Name)
        (twoServicesProject.Services.filter (fun s => s.Build.isSome))
        [plainTarget "web_app" "."]
      ∧ [plainTarget "web_app" "."].length =
        (twoServicesProject.Services.filter (fun s => s.Build.isSome)).length :=
  parseCompose_targets_of_build_services (sampleExternals twoServicesProject) [] none
    twoServicesProject
    { Groups := [{ Name := "default", Targets := ["web_app"] }],
      Targets := [plainTarget "web_app" "."] }
    rfl (by decide)

/-- C11, as the code has it: for every service secret reference and every
project-level secret definition that is not marked External, when none of
`Source`, `File` and `Environment` contains a comma, the string returned by
`composeToBuildkitSecret` matches `^(id=[^,]*)?(,?src=[^,]*)?(,?env=[^,]*)?$`
and has at most one `id=`, one `src=` and one `env=` attribute. -/
theorem composeToBuildkitSecret_shape (inp : ServiceSecretConfig) (psecret : SecretConfig)
    (hext : psecret.External = false)
    (hsource : ',' ∉ inp.Source.data) (hfile : ',' ∉ psecret.File.data)
    (henv : ',' ∉ psecret.Environment.data) :
    ∃ s, composeToBuildkitSecret inp psecret = .ok s ∧
      secretShape.fullMatch s = true ∧
      attributeCount "id=" s ≤ 1 ∧ attributeCount "src=" s ≤ 1 ∧ attributeCount "env=" s ≤ 1 := by
  have kid : "id=".data = ['i', 'd', '='] := rfl
  have ksrc : "src=".data = ['s', 'r', 'c', '='] := rfl
  have kenv : "env=".data = ['e', 'n', 'v', '='] := rfl
  have cid : ',' ∉ "id=".data ++ inp.Source.data := by simp [kid, hsource]
  have csrc : ',' ∉ "src=".data ++ psecret.File.data := by simp [ksrc, hfile]
  have cenv : ',' ∉ "env=".data ++ psecret.Environment.data := by simp [kenv, henv]
  have mid := Regex.matches_keyed "id=".data inp.Source.data hsource
  have msrc1 := Regex.matches_keyed_first "src=".data psecret.File.data hfile
  have msrc2 := Regex.matches_keyed_after_comma "src=".data psecret.File.data hfile
  have menv1 := Regex.matches_keyed_first "env=".data psecret.Environment.data henv
  have menv2 := Regex.matches_keyed_after_comma "env=".data psecret.Environment.data henv
  by_cases h1 : inp.Source = "" <;> by_cases h2 : psecret.File = "" <;>
    by_cases h3 : psecret.Environment = ""
  · exact ⟨"", by simp [composeToBuildkitSecret, hext, h1, h2, h3, stringsJoin,
      String.intercalate], by decide, by decide, by decide, by decide⟩
  · have hd : ("env=" ++ psecret.Environment).data =
        ("env=".data ++ psecret.Environment.data) := by
      simp [String.data_append]
    refine ⟨("env=" ++ psecret.Environment), by simp [composeToBuildkitSecret, hext, h1, h2, h3,
      stringsJoin, String.intercalate, String.intercalate.go], ?_, ?_, ?_, ?_⟩
    · rw [Regex.fullMatch_iff, hd]
      have hm := secretShape_of_parts [] [] ("env=".data ++ psecret.Environment.data)
        (Or.inl rfl) (Or.inl rfl) (Or.inr menv1)
      simpa using hm
    all_goals
      simp only [attributeCount, hd, splitComma_of_no_comma _ cenv]
      simp [kid, ksrc, kenv, List.isPrefixOf]
  · have hd : ("src=" ++ psecret.File).data =
        ("src=".data ++ psecret.File.data) := by
      simp [String.data_append]
    refine ⟨("src=" ++ psecret.File), by simp [composeToBuildkitSecret, hext, h1, h2, h3,
      stringsJoin, String.intercalate, String.intercalate.go], ?_, ?_, ?_, ?_⟩
    · rw [Regex.fullMatch_iff, hd]
      have hm := secretShape_of_parts [] ("src=".data ++ psecret.File.data) []
        (Or.inl rfl) (Or.inr msrc1) (Or.inl rfl)
      simpa using hm
    all_goals
      simp only [attributeCount, hd, splitComma_of_no_comma _ csrc]
      simp [kid, ksrc, kenv, List.isPrefixOf]
  · have hd : (("src=" ++ psecret.File) ++ "," ++ ("env=" ++ psecret.Environment)).data =
        ("src=".data ++ psecret.File.data) ++
          ',' :: (("env=".data ++ psecret.Environment.data)) := by
      simp [String.data_append]
    refine ⟨(("src=" ++ psecret.File) ++ "," ++ ("env=" ++ psecret.Environment)),
      by simp [composeToBuildkitSecret, hext, h1, h2, h3,
      stringsJoin, String.intercalate, String.intercalate.go], ?_, ?_, ?_, ?_⟩
    · rw [Regex.fullMatch_iff, hd]
      have hm := secretShape_of_parts
        []
        ("src=".data ++ psecret.File.data)
        (',' :: ("env=".data ++ psecret.Environment.data))
        (Or.inl rfl) (Or.inr msrc1) (Or.inr menv2)
      simpa using hm
    all_goals
      simp only [attributeCount, hd, splitComma_append_comma _ _ csrc,
        splitComma_of_no_comma _ cenv]
      simp [kid, ksrc, kenv, List.isPrefixOf]
  · have hd : ("id=" ++ inp.Source).data =
        ("id=".data ++ inp.Source.data) := by
      simp [String.data_append]
    refine ⟨("id=" ++ inp.Source), by simp [composeToBuildkitSecret, hext, h1, h2, h3,
      stringsJoin, String.intercalate, String.intercalate.go], ?_, ?_, ?_, ?_⟩
    · rw [Regex.fullMatch_iff, hd]
      have hm := secretShape_of_parts ("id=".data ++ inp.Source.data) [] []
        (Or.inr mid) (Or.inl rfl) (Or.inl rfl)
      simpa using hm
    all_goals
      simp only [attributeCount, hd, splitComma_of_no_comma _ cid]
      simp [kid, ksrc, kenv, List.isPrefixOf]
  · have hd : (("id=" ++ inp.Source) ++ "," ++ ("env=" ++ psecret.Environment)).data =
        ("id=".data ++ inp.Source.data) ++ ',' :: (("env=".data ++ psecret.Environment.data)) := by
      simp [String.data_append]
    refine ⟨(("id=" ++ inp.Source) ++ "," ++ ("env=" ++ psecret.Environment)),
      by simp [composeToBuildkitSecret, hext, h1, h2, h3,
      stringsJoin, String.intercalate, String.intercalate.go], ?_, ?_, ?_, ?_⟩
    · rw [Regex.fullMatch_iff, hd]
      have hm := secretShape_of_parts
        ("id=".data ++ inp.Source.data)
        []
        (',' :: ("env=".data ++ psecret.Environment.data))
        (Or.inr mid) (Or.inl rfl) (Or.inr menv2)
      simpa using hm
    all_goals
      simp only [attributeCount, hd, splitComma_append_comma _ _ cid, splitComma_of_no_comma _ cenv]
      simp [kid, ksrc, kenv, List.isPrefixOf]
  · have hd : (("id=" ++ inp.Source) ++ "," ++ ("src=" ++ psecret.File)).data =
        ("id=".data ++ inp.Source.data) ++ ',' :: (("src=".data ++ psecret.File.data)) := by
      simp [String.data_append]
    refine ⟨(("id=" ++ inp.Source) ++ "," ++ ("src=" ++ psecret.File)),
      by simp [composeToBuildkitSecret, hext, h1, h2, h3,
      stringsJoin, String.intercalate, String.intercalate.go], ?_, ?_, ?_, ?_⟩
    · rw [Regex.fullMatch_iff, hd]
      have hm := secretShape_of_parts
        ("id=".data ++ inp.Source.data)
        (',' :: ("src=".data ++ psecret.File.data))
        []
        (Or.inr mid) (Or.inr msrc2) (Or.inl rfl)
      simpa using hm
    all_goals
      simp only [attributeCount, hd, splitComma_append_comma _ _ cid, splitComma_of_no_comma _ csrc]
      simp [kid, ksrc, kenv, List.isPrefixOf]
  · have hd : ((("id=" ++ inp.Source) ++ "," ++ ("src=" ++ psecret.File)) ++ "," ++
        ("env=" ++ psecret.Environment)).data =
        ("id=".data ++ inp.Source.data) ++ ',' :: (("src=".data ++ psecret.File.data) ++
          ',' :: (("env=".data ++ psecret.Environment.data))) := by
      simp [String.data_append]
    refine ⟨((("id=" ++ inp.Source) ++ "," ++ ("src=" ++ psecret.File)) ++ "," ++
        ("env=" ++ psecret.Environment)),
      by simp [composeToBuildkitSecret, hext, h1, h2, h3,
      stringsJoin, String.intercalate, String.intercalate.go], ?_, ?_, ?_, ?_⟩
    · rw [Regex.fullMatch_iff, hd]
      have hm := secretShape_of_parts
        ("id=".data ++ inp.Source.data)
        (',' :: ("src=".data ++ psecret.File.data))
        (',' :: ("env=".data ++ psecret.Environment.data))
        (Or.inr mid) (Or.inr msrc2) (Or.inr menv2)
      simpa using hm
    all_goals
      simp only [attributeCount, hd, splitComma_append_comma _ _ cid,
        splitComma_append_comma _ _ csrc, splitComma_of_no_comma _ cenv]
      simp [kid, ksrc, kenv, List.isPrefixOf]

/-- Witness of C11: the reference `token` against a file-and-environment
secret without commas. -/
theorem composeToBuildkitSecret_shape_witness :
    ∃ s, composeToBuildkitSecret tokenRef
          { Name := "token", File := "/run/token", Environment := "TOKEN", External := false } =
        .ok s ∧
      secretShape.fullMatch s = true ∧
      attributeCount "id=" s ≤ 1 ∧ attributeCount "src=" s ≤ 1 ∧ attributeCount "env=" s ≤ 1 :=
  composeToBuildkitSecret_shape tokenRef
    { Name := "token", File := "/run/token", Environment := "TOKEN", External := false }
    rfl (by decide) (by decide) (by decide)

/-- Counterexample to C11 as stated: the secret `token` has the file
`./keys/a,id=b`; the rendered string `id=token,src=./keys/a,id=b` does not
match the expression and has two `id=` attributes. -/
theorem composeToBuildkitSecret_comma_breaks_shape :
    commaFileSecret.External = false
      ∧ composeToBuildkitSecret tokenRef commaFileSecret = .ok "id=token,src=./keys/a,id=b"
      ∧ secretShape.fullMatch "id=token,src=./keys/a,id=b" = false
      ∧ attributeCount "id=" "id=token,src=./keys/a,id=b" = 2 := by
  refine ⟨rfl, by decide, by decide, by decide⟩

/-- C12, where the code departs from it: `ParseCompose` appends targets, group
members and ulimits in the order in which the `range` loops enumerate the
services map and the ulimits map.  The services map with the entries `a` and
`b` yields the targets `a`, `b` when enumerated as `a`, `b` and the targets
`b`, `a` when enumerated as `b`, `a`; the ulimits map with the entries `nofile`
and `nproc` yields two different `Ulimits` lists in the same way. -/
theorem parseCompose_follows_enumeration_order :
    orderProjectAB.Services.Perm orderProjectBA.Services
      ∧ ParseCompose (sampleExternals orderProjectAB) [] none =
        .ok { Groups := [{ Name := "default", Targets := ["a", "b"] }],
              Targets := [plainTarget "a" "./a", plainTarget "b" "./b"] }
      ∧ ParseCompose (sampleExternals orderProjectBA) [] none =
        .ok { Groups := [{ Name := "default", Targets := ["b", "a"] }],
              Targets := [plainTarget "b" "./b", plainTarget "a" "./a"] }
      ∧ ParseCompose (sampleExternals orderProjectAB) [] none ≠
        ParseCompose (sampleExternals orderProjectBA) [] none
      ∧ [ulimitNofile, ulimitNproc].Perm [ulimitNproc, ulimitNofile]
      ∧ (ParseCompose (sampleExternals (ulimitsProject [ulimitNofile, ulimitNproc])) [] none).map
          (fun c => c.Targets.map Target.Ulimits) =
        .ok [["nofile=1024:2048", "nproc=512:1024"]]
      ∧ (ParseCompose (sampleExternals (ulimitsProject [ulimitNproc, ulimitNofile])) [] none).map
          (fun c => c.Targets.map Target.Ulimits) =
        .ok [["nproc=512:1024", "nofile=1024:2048"]] := by
  refine ⟨List.Perm.swap _ _ _, by decide, by decide, by decide, List.Perm.swap _ _ _,
    by decide, by decide⟩

end Bake
